import Mathlib

namespace ReconcileFlow

/-!
# Verification of the `ReconcileFlow` grouping / navigation / playback engine

Shallow embedding of the final revision of the `ReconcileFlow` class
(`src/kube-controller-viz/frontend/src/components/ReconcileFlow.js`,
lines 738-2056).  JavaScript `Map`s are modelled as insertion-ordered
association lists, numbers as rationals, and the rendering objects
(tubes, balls, curves) as the sets of keys for which they exist; the
geometric content of a curve is irrelevant to every claim, only whether
a key is registered.  `Date.now()` samples are passed in as explicit
inputs of the model.
-/

/-! ## Association lists modelling JavaScript `Map`s

JS `Map` iterates in insertion order; `Map.set` updates an existing key
in place and appends an absent key at the end.  `lookupA`, `setA` and
`pushA` mirror `get`/`has`, `set`, and "get-or-create then push". -/

def lookupA {α : Type} (k : String) : List (String × α) → Option α
  | [] => none
  | (k', v) :: rest => if k' = k then some v else lookupA k rest

def setA {α : Type} (k : String) (v : α) : List (String × α) → List (String × α)
  | [] => [(k, v)]
  | (k', v') :: rest => if k' = k then (k, v) :: rest else (k', v') :: setA k v rest

def pushA {α : Type} (k : String) (v : α) : List (String × List α) → List (String × List α)
  | [] => [(k, [v])]
  | (k', l) :: rest => if k' = k then (k', l ++ [v]) :: rest else (k', l) :: pushA k v rest

/-! ## Step records and timestamps

A timestamp field can hold a `Date` object (`typeof aTime === 'object'`,
its `getTime()` value), a millisecond number, or a string.  A string is
modelled together with its `new Date(string).getTime()` result: `some q`
when the string parses (ISO-8601 etc.), `none` for `NaN`.  Only
non-empty strings are modelled (`""` is falsy in every use below, hence
indistinguishable from an absent field, which is `Option.none` at the
record level).  Valid `Date` objects and in-range numerics are assumed,
matching the data the backend produces. -/

inductive TimeVal : Type
  | obj (ms : ℚ)
  | num (ms : ℚ)
  | str (parsed : Option ℚ)
  deriving DecidableEq, Repr

/-- JavaScript truthiness of a timestamp field value: objects and
non-empty strings are truthy, a number is truthy iff nonzero. -/
def TimeVal.truthy : TimeVal → Bool
  | .obj _ => true
  | .num ms => ms ≠ 0
  | .str _ => true

/-- `typeof t === 'object' ? t.getTime() : new Date(t).getTime()`:
`none` is `NaN`. -/
def TimeVal.getTimeValue : TimeVal → Option ℚ
  | .obj ms => some ms
  | .num ms => some ms
  | .str p => p

/-- A step record.  The JS field `namespace` is called `namespc` here
(`namespace` is a Lean keyword); free-form payload fields that no
claim's code path reads are omitted. -/
structure Step : Type where
  reconcileId : Option String := none
  reconcileID : Option String := none
  namespc : Option String := none
  name : Option String := none
  timestamp : Option TimeVal := none
  ts : Option TimeVal := none
  status : Option String := none
  level : Option String := none
  type : Option String := none
  deriving DecidableEq, Repr

/-- Truthiness of an optional timestamp field (absent is falsy). -/
def truthyT : Option TimeVal → Bool
  | none => false
  | some t => t.truthy

/-- `a.timestamp || a.ts || 0` from the sort comparators. -/
def rawTime (a : Step) : TimeVal :=
  if truthyT a.timestamp then a.timestamp.getD (.num 0)
  else if truthyT a.ts then a.ts.getD (.num 0)
  else .num 0

/-- The parsed millisecond value the comparator compares; `none` is
`NaN`. -/
def timeNum (a : Step) : Option ℚ :=
  (rawTime a).getTimeValue

/-- The comparator `aTimeValue - bTimeValue` as a "may stay before"
test.  Per ECMAScript `SortCompare`, a comparator result of `NaN` is
coerced to `+0`, so a pair involving an unparsable timestamp is treated
as equal. -/
def stepLE (a b : Step) : Bool :=
  match timeNum a, timeNum b with
  | some x, some y => x ≤ y
  | _, _ => true

/-! ## Stable sorting

`Array.prototype.sort` is stable (ES2019).  For a consistent comparator
every stable sort produces the same output, which the insertion sort
below computes.  (For an inconsistent comparator — possible only when a
`NaN` timestamp meets two distinct parseable ones — the ECMAScript
result is implementation-defined; the theorems below either assume all
timestamps parse or use two-element lists, where the result is forced
by `SortCompare`.) -/

def orderedInsertB {α : Type} (le : α → α → Bool) (a : α) : List α → List α
  | [] => [a]
  | b :: l => if le a b then a :: b :: l else b :: orderedInsertB le a l

def insertionSortB {α : Type} (le : α → α → Bool) : List α → List α
  | [] => []
  | a :: l => orderedInsertB le a (insertionSortB le l)

/-! ## Grouping engine

`getStepsByReconcileId` / `getStepsByResource` partition `this.steps`
into a `Map` keyed by the resolved group key (first-seen key order,
appending each record to its group) and then sort every group with the
timestamp comparator. -/

/-- Truthiness of an optional string field: absent and `""` are falsy. -/
def truthyS : Option String → Bool
  | none => false
  | some str => str ≠ ""

/-- `a || b` on two optional string fields. -/
def jsOrS (a b : Option String) : Option String :=
  if truthyS a then a else b

/-- `const reconcileId = step.reconcileId || step.reconcileID;
if (!reconcileId) return;` — the key under by-reconciliation grouping,
`none` when the record is dropped. -/
def reconKey (s : Step) : Option String :=
  let k := jsOrS s.reconcileId s.reconcileID
  if truthyS k then k else none

/-- `namespace`/`name` resolution with `|| ''` defaults and the
`if (!namespace || !name) return;` guard: the `namespace/name` key, or
`none` when the record is dropped. -/
def resourceKey (s : Step) : Option String :=
  let ns := s.namespc.getD ""
  let nm := s.name.getD ""
  if ns = "" ∨ nm = "" then none else some (ns ++ "/" ++ nm)

/-- Sort a group's records with the timestamp comparator. -/
def sortSteps (l : List Step) : List Step :=
  insertionSortB stepLE l

/-- One `forEach` iteration of the partitioning loop. -/
def groupStep (keyOf : Step → Option String) (acc : List (String × List Step))
    (s : Step) : List (String × List Step) :=
  match keyOf s with
  | none => acc
  | some k => pushA k s acc

/-- Partition a step list by `keyOf`, then sort each group. -/
def groupBy (keyOf : Step → Option String) (steps : List Step) :
    List (String × List Step) :=
  (steps.foldl (groupStep keyOf) []).map (fun kv => (kv.1, sortSteps kv.2))

def getStepsByReconcileId (steps : List Step) : List (String × List Step) :=
  groupBy reconKey steps

def getStepsByResource (steps : List Step) : List (String × List Step) :=
  groupBy resourceKey steps

/-- The records of `steps` whose key resolves to `k`, in input order. -/
def withKey (keyOf : Step → Option String) (k : String) (steps : List Step) :
    List Step :=
  steps.filter (fun s => keyOf s = some k)

/-- `Math.abs` (no `NaN` inputs arise in the modelled paths). -/
def jsAbs (q : ℚ) : ℚ :=
  if q < 0 then -q else q

/-- `Math.max` on two numbers. -/
def jsMax (a b : ℚ) : ℚ :=
  if a < b then b else a

/-- `Math.min` on two numbers. -/
def jsMin (a b : ℚ) : ℚ :=
  if a < b then a else b

/-! ## Engine state

The final-revision constructor initializes every collection; rendering
objects are modelled by the key sets for which they exist.  `Date.now()`
samples are explicit inputs of `update`. -/

inductive GMode : Type
  | reconcileId
  | resource
  deriving DecidableEq, Repr

/-- `enrichStepWithMetadata` output: the step plus
`{stepNumber: index+1, totalSteps}`. -/
structure EnrichedStep : Type where
  step : Step
  stepNumber : ℕ
  totalSteps : ℕ
  deriving DecidableEq, Repr

def enrichStepWithMetadata (step : Step) (index total : ℕ) : EnrichedStep :=
  { step := step, stepNumber := index + 1, totalSteps := total }

structure Flow : Type where
  steps : List Step := []
  groupingMode : GMode := .reconcileId
  manualControl : Bool := false
  animating : Bool := false
  animationSpeed : ℚ := 1
  lastUpdate : ℚ := 0
  activePipelineId : Option String := none
  currentStepIndices : List (String × ℕ) := []
  ballPositions : List (String × ℚ) := []
  targetPositions : List (String × ℚ) := []
  balls : List String := []
  curves : List String := []
  pipelines : List String := []
  tubes : List String := []
  pipelineObjects : List String := []
  stepMarkers : List String := []
  stepPositions : List String := []
  currentStep : Option EnrichedStep := none
  deriving DecidableEq, Repr

/-- Steps grouped according to the current grouping mode. -/
def getGroupedSteps (s : Flow) : List (String × List Step) :=
  if s.groupingMode = GMode.resource then getStepsByResource s.steps
  else getStepsByReconcileId s.steps

/-- `index / Math.max(stepCount - 1, 1)` (equivalently
`index / Math.max(1, steps.length - 1)`): the normalized position of
step `index` among `n` steps. -/
def normPos (index n : ℕ) : ℚ :=
  (index : ℚ) / jsMax ((n : ℚ) - 1) 1

/-- One iteration of the closest-step scan: the running
`(closestIndex, closestDistance)` pair is replaced on strict
improvement. -/
def scanStep (pos : ℚ) (n : ℕ) (best : ℕ × ℚ) (i : ℕ) : ℕ × ℚ :=
  let distance := jsAbs (pos - normPos i n)
  if distance < best.2 then (i, distance) else best

/-- The closest-step scan over indices `0, ..., n-1`, starting from
`closestIndex = 0`, `closestDistance = 1`. -/
def closestScan (pos : ℚ) (n : ℕ) : ℕ × ℚ :=
  (List.range n).foldl (scanStep pos n) (0, 1)

def closestIndex (pos : ℚ) (n : ℕ) : ℕ :=
  (closestScan pos n).1

/-- `getColorForStatus` (final revision). -/
def getColorForStatus (status : String) : ℕ :=
  match status with
  | "started" | "reconcile-start" => 0x00ff00
  | "completed" | "reconcile-complete" => 0x00ff00
  | "failed" => 0x00ff00
  | "reconcile-error" => 0xff0000
  | _ => 0x00ff00

/-- `clearAllPipelines`: scene removals are rendering-only; every
tracking map is cleared and `currentStep` reset.  `activePipelineId` is
not touched. -/
def clearAllPipelines (s : Flow) : Flow :=
  { s with
    pipelineObjects := [], pipelines := [], tubes := [], curves := [],
    balls := [], ballPositions := [], targetPositions := [],
    stepMarkers := [], stepPositions := [], currentStepIndices := [],
    currentStep := none }

/-- `moveToNextStep` (final revision).  Returns the JS boolean result
together with the state. -/
def moveToNextStep (s : Flow) : Bool × Flow :=
  match s.activePipelineId with
  | none => (false, s)
  | some k =>
    match lookupA k (getGroupedSteps s) with
    | none => (false, s)
    | some steps =>
      if steps.isEmpty then (false, s)
      else
        let currentIndex := (lookupA k s.currentStepIndices).getD 0
        if steps.length - 1 ≤ currentIndex then (false, s)
        else
          let nextIndex := currentIndex + 1
          let nextStep := steps.getD nextIndex {}
          (true, { s with
            currentStepIndices := setA k nextIndex s.currentStepIndices,
            currentStep :=
              some (enrichStepWithMetadata nextStep nextIndex steps.length),
            targetPositions :=
              setA k (normPos nextIndex steps.length) s.targetPositions,
            animating := true })

/-- `moveToPreviousStep` (final revision). -/
def moveToPreviousStep (s : Flow) : Bool × Flow :=
  match s.activePipelineId with
  | none => (false, s)
  | some k =>
    match lookupA k (getGroupedSteps s) with
    | none => (false, s)
    | some steps =>
      if steps.isEmpty then (false, s)
      else
        let currentIndex := (lookupA k s.currentStepIndices).getD 0
        if currentIndex = 0 then (false, s)
        else
          let prevIndex := currentIndex - 1
          let prevStep := steps.getD prevIndex {}
          (true, { s with
            currentStepIndices := setA k prevIndex s.currentStepIndices,
            currentStep :=
              some (enrichStepWithMetadata prevStep prevIndex steps.length),
            targetPositions :=
              setA k (normPos prevIndex steps.length) s.targetPositions,
            animating := true })

/-- `setActivePipeline` (final revision).  Tube highlighting is
rendering-only and not part of the state model. -/
def setActivePipeline (pipelineId : String) (s : Flow) : Bool × Flow :=
  if s.activePipelineId = some pipelineId then (true, s)
  else if ¬(pipelineId ∈ s.pipelineObjects ∨ pipelineId ∈ s.tubes ∨
            pipelineId ∈ s.curves ∨ pipelineId ∈ s.pipelines) then (false, s)
  else
    let s1 := { s with activePipelineId := some pipelineId }
    if s1.manualControl then
      match lookupA pipelineId (getGroupedSteps s1) with
      | none => (true, s1)
      | some steps =>
        if steps.isEmpty then (true, s1)
        else
          let cis :=
            match lookupA pipelineId s1.currentStepIndices with
            | some ci => (ci, s1)
            | none =>
              (0, { s1 with
                currentStepIndices := setA pipelineId 0 s1.currentStepIndices })
          let ci := cis.1
          let s2 := cis.2
          if ci < steps.length then
            (true, { s2 with
              currentStep :=
                some (enrichStepWithMetadata (steps.getD ci {}) ci steps.length),
              targetPositions :=
                setA pipelineId (normPos ci steps.length) s2.targetPositions,
              animating := true })
          else (true, s2)
    else (true, s1)

/-- The step-index initialization loop of `initializeManualNavigation`:
keys without a `currentStepIndex` get index 0. -/
def initNavIndexLoop (ids : List String) (st : Flow) : Flow :=
  ids.foldl (fun st k =>
    if (lookupA k st.currentStepIndices).isSome then st
    else { st with currentStepIndices := setA k 0 st.currentStepIndices }) st

/-- The trailing active-pipeline block of `initializeManualNavigation`:
cache the active group's current step and set its target position. -/
def initNavActiveBlock (s3 : Flow) : Flow :=
  match s3.activePipelineId with
  | none => s3
  | some a =>
    match lookupA a (getGroupedSteps s3) with
    | none => s3
    | some steps =>
      if steps.isEmpty then s3
      else
        let ci := (lookupA a s3.currentStepIndices).getD 0
        { s3 with
          currentStep :=
            some (enrichStepWithMetadata (steps.getD ci {}) ci steps.length),
          targetPositions := setA a (normPos ci steps.length) s3.targetPositions,
          animating := true }

/-- `initializeManualNavigation` (final revision, lines 929-1011).
`getPipelineIds()` is `Array.from(this.pipelineObjects.keys())`. -/
def initializeManualNavigation (s : Flow) : Flow :=
  if ¬ s.manualControl then s
  else
    let s1 := { s with animating := false }
    let ids := s1.pipelineObjects
    if ids.isEmpty then s1
    else
      let s2 :=
        match s1.activePipelineId with
        | some a =>
          if a ≠ "" ∧ a ∈ s1.pipelineObjects then s1
          else (setActivePipeline (ids.headD "") s1).2
        | none => (setActivePipeline (ids.headD "") s1).2
      initNavActiveBlock (initNavIndexLoop ids s2)

/-- `getCurrentStep` (final revision).  The manual branch returns only
on success and otherwise falls through to the automatic logic;
`steps[i]` existence tests become index-bound checks. -/
def getCurrentStep (s : Flow) : Option EnrichedStep :=
  let manualResult : Option EnrichedStep :=
    if s.manualControl then
      match s.activePipelineId with
      | some k =>
        (match lookupA k (getGroupedSteps s) with
         | some steps =>
           let currentIndex := (lookupA k s.currentStepIndices).getD 0
           if currentIndex < steps.length then
             some (enrichStepWithMetadata (steps.getD currentIndex {})
               currentIndex steps.length)
           else none
         | none => none)
      | none => none
    else none
  match manualResult with
  | some r => some r
  | none =>
    if s.ballPositions.isEmpty then s.currentStep
    else
      let fromActive : Option EnrichedStep :=
        match s.activePipelineId with
        | some k =>
          (match lookupA k (getGroupedSteps s) with
           | some steps =>
             (match lookupA k s.ballPositions with
              | some currentPos =>
                let ci := closestIndex currentPos steps.length
                if ci < steps.length then
                  some (enrichStepWithMetadata (steps.getD ci {}) ci steps.length)
                else none
              | none => none)
           | none => none)
        | none => none
      match fromActive with
      | some r => some r
      | none =>
        match s.ballPositions.findSome? (fun kp =>
          match lookupA kp.1 (getGroupedSteps s) with
          | some steps =>
            let ci := closestIndex kp.2 steps.length
            if ci < steps.length then
              some (enrichStepWithMetadata (steps.getD ci {}) ci steps.length)
            else none
          | none => none) with
        | some r => some r
        | none => s.currentStep

/-- Insert a key into a registration set (a `Map.set` whose value is a
rendering object). -/
def addKey (k : String) (l : List String) : List String :=
  if k ∈ l then l else l ++ [k]

/-- State effect of `getCurveForReconcileId`: an existing curve is
returned when the key is in `curves` or in `pipelines`; otherwise
`createFlowPath` builds the path — storing the new ball object and
resetting the key's current and target positions to 0 — and the caller
registers it in `pipelines`, `tubes` and `curves`.  The returned curve
object is always truthy, so the caller's `!curve` guard never fires. -/
def registerCurve (k : String) (s : Flow) : Flow :=
  if k ∈ s.curves then s
  else if k ∈ s.pipelines then s
  else { s with
    balls := addKey k s.balls,
    ballPositions := setA k 0 s.ballPositions,
    targetPositions := setA k 0 s.targetPositions,
    pipelines := addKey k s.pipelines,
    tubes := addKey k s.tubes,
    curves := addKey k s.curves }

/-- One iteration of the per-ball loop in `update`, at adjusted delta
`ad`.  A target key with no tracked position gets its position set to 0
and is skipped.  Otherwise, past the epsilon test, the loop asks
`getCurveForReconcileId` for the key's curve — which may lazily create
the flow path, resetting the key's position and target to 0 and adding
its ball — and then, `newPos` having been computed from the pre-read
values, writes it to `ballPositions` if a ball object exists (it always
does after a create).  Ball/tangent placement on the curve itself is
rendering-only. -/
def moveBody (ad : ℚ) (s : Flow) (kt : String × ℚ) : Flow :=
  match lookupA kt.1 s.ballPositions with
  | none => { s with ballPositions := setA kt.1 0 s.ballPositions }
  | some currentPos =>
    let targetPos := kt.2
    let distanceToTarget := jsAbs (targetPos - currentPos)
    if distanceToTarget < 1/1000 then s
    else
      let minStep : ℚ := 1/2000
      let maxStep : ℚ := 3/1000
      let dynamicStep := jsMin maxStep (distanceToTarget * (1/10) + minStep)
      let step := dynamicStep * ad * 60
      let dir : ℚ := if targetPos > currentPos then 1 else -1
      let newPos := currentPos + dir * jsMin step distanceToTarget
      let s1 := registerCurve kt.1 s
      if kt.1 ∈ s1.balls then
        { s1 with ballPositions := setA kt.1 newPos s1.ballPositions }
      else s1

/-- `update(speed)`: `now` is the `Date.now()` sample taken on entry.
The non-animating else-branch only refreshes ball colors (rendering),
so it leaves the modelled state untouched apart from `lastUpdate`. -/
def update (now speed : ℚ) (s : Flow) : Flow :=
  let delta := (now - s.lastUpdate) / 1000
  let s0 := { s with lastUpdate := now }
  let adjustedDelta := delta * speed * s0.animationSpeed
  if s0.animating then
    let s1 := s0.targetPositions.foldl (moveBody adjustedDelta) s0
    let allAtTarget := s1.targetPositions.all
      (fun kt =>
        decide (jsAbs (kt.2 - (lookupA kt.1 s1.ballPositions).getD 0) ≤ 1/1000))
    if allAtTarget then { s1 with animating := false } else s1
  else s0

/-- A tick with a fixed externally-chosen elapsed time `dt` seconds:
the `Date.now()` sample is `lastUpdate + 1000 * dt`. -/
def tickE (dt speed : ℚ) (s : Flow) : Flow :=
  update (s.lastUpdate + 1000 * dt) speed s

/-- `n` consecutive fixed-elapsed ticks. -/
def tickN (dt speed : ℚ) : ℕ → Flow → Flow
  | 0, s => s
  | n + 1, s => tickE dt speed (tickN dt speed n s)

/-- The per-tick `ballPositions` trajectory for a sequence of
`(Date.now() sample, speed)` inputs. -/
def posTrace (inputs : List (ℚ × ℚ)) (s : Flow) : List (List (String × ℚ)) :=
  match inputs with
  | [] => []
  | p :: rest =>
    let s1 := update p.1 p.2 s
    s1.ballPositions :: posTrace rest s1

/-- The per-key position transition `update` performs at adjusted delta
`ad`: unchanged within epsilon, otherwise moved toward the target by
`min(step, distance)`. -/
def movePos (ad c t : ℚ) : ℚ :=
  let distanceToTarget := jsAbs (t - c)
  if distanceToTarget < 1/1000 then c
  else c + (if t > c then 1 else -1) *
    jsMin (jsMin (3/1000) (distanceToTarget * (1/10) + 1/2000) * ad * 60)
      distanceToTarget

/-- Agreement on the playback-relevant state: everything the position
dynamics of `update` can read or write. -/
def playbackEq (s1 s2 : Flow) : Prop :=
  s1.animating = s2.animating ∧ s1.animationSpeed = s2.animationSpeed ∧
  s1.lastUpdate = s2.lastUpdate ∧ s1.ballPositions = s2.ballPositions ∧
  s1.targetPositions = s2.targetPositions ∧ s1.balls = s2.balls

/-- Playback agreement extended with the curve and pipeline key
registries: everything the per-ball loop can read, since
`getCurveForReconcileId` branches on membership in `curves` and
`pipelines` and its create branch rewrites the playback fields. -/
def playbackEqC (s1 s2 : Flow) : Prop :=
  playbackEq s1 s2 ∧ s1.curves = s2.curves ∧ s1.pipelines = s2.pipelines

/-- The state after the per-ball loop of one `update(speed)` call with
`Date.now()` sample `now` (before the all-at-target check). -/
def updateMoved (now speed : ℚ) (s : Flow) : Flow :=
  s.targetPositions.foldl
    (moveBody ((now - s.lastUpdate) / 1000 * speed * s.animationSpeed))
    { s with lastUpdate := now }

/-- Modelled from the spec: the sort key the claim prescribes, under
which both ISO strings and millisecond numerics parse to their epoch
value and "unparsable timestamps sort as epoch 0". -/
def claimTime (s : Step) : ℚ :=
  (timeNum s).getD 0

/-! ## Concrete fixtures used by witnesses and counterexamples -/

/-- A step of group `"A"` at epoch millisecond 1. -/
def stepA1 : Step := { reconcileId := some "A", timestamp := some (.num 1) }

/-- A step of group `"A"` at epoch millisecond 2. -/
def stepA2 : Step := { reconcileId := some "A", timestamp := some (.num 2) }

/-- A state whose active group `"A"` has two steps and whose stored
index is the last one. -/
def c5State : Flow :=
  { steps := [stepA1, stepA2],
    activePipelineId := some "A",
    currentStepIndices := [("A", 1)] }

/-- A step of group `"B"` at epoch millisecond 3. -/
def stepB1 : Step := { reconcileId := some "B", timestamp := some (.num 3) }

/-- A step of group `"A"` at epoch millisecond 5. -/
def stepA5 : Step := { reconcileId := some "A", timestamp := some (.num 5) }

/-- A step of group `"A"` with a non-empty unparsable timestamp string
(`new Date(...)` yields `NaN`). -/
def stepN : Step := { reconcileId := some "A", timestamp := some (.str none) }

/-- A manual-mode state with registered pipelines `"A"` (active) and
`"B"`, whose groups have steps. -/
def c6WState : Flow :=
  { steps := [stepA1, stepA2, stepB1],
    activePipelineId := some "A",
    pipelineObjects := ["A", "B"],
    manualControl := true }

/-- A manual-mode state whose pipeline `"A"` has no step index yet and
whose ball sits at position 1 on a two-step group. -/
def c4State : Flow :=
  { steps := [stepA1, stepA2],
    manualControl := true,
    pipelineObjects := ["A"],
    activePipelineId := some "A",
    ballPositions := [("A", 1)] }

/-- An automatic-mode state with no active key, a cached current step,
and a tracked pipeline `"B"` with one step. -/
def c9State : Flow :=
  { steps := [stepB1],
    activePipelineId := none,
    ballPositions := [("B", 0)],
    currentStep := some (enrichStepWithMetadata stepA1 4 9) }

/-- An automatic-mode state with active key `"A"`, a two-step group and
the ball at position 1. -/
def c9WState : Flow :=
  { steps := [stepA1, stepA2],
    activePipelineId := some "A",
    ballPositions := [("A", 1)] }

/-- An animating state with one registered key `"A"` (ball and curve
present) at position 0 and target 1. -/
def c1State : Flow :=
  { animating := true,
    targetPositions := [("A", 1)],
    ballPositions := [("A", 0)],
    balls := ["A"],
    curves := ["A"] }

/-- Same playback state as `c3StateB` but different grouping-side
fields. -/
def c3StateA : Flow :=
  { steps := [stepA1],
    animating := true,
    targetPositions := [("A", 1)],
    ballPositions := [("A", 0)],
    balls := ["A"] }

/-- Same playback state as `c3StateA` but different grouping-side
fields. -/
def c3StateB : Flow :=
  { steps := [stepB1],
    manualControl := true,
    activePipelineId := some "A",
    currentStep := some (enrichStepWithMetadata stepB1 0 1),
    animating := true,
    targetPositions := [("A", 1)],
    ballPositions := [("A", 0)],
    balls := ["A"] }

/-- An animating state with key `"A"` fully registered: ball, curve,
pipeline and tube present, position 0, target 1. -/
def c3CexA : Flow :=
  { animating := true,
    targetPositions := [("A", 1)],
    ballPositions := [("A", 0)],
    balls := ["A"],
    curves := ["A"],
    pipelines := ["A"],
    tubes := ["A"] }

/-- The same playback state as `c3CexA` — same positions, targets,
balls, flag, speed factor and last-update sample — but with no
registered curve or pipeline for `"A"`. -/
def c3CexB : Flow :=
  { animating := true,
    targetPositions := [("A", 1)],
    ballPositions := [("A", 0)],
    balls := ["A"] }

/-- `c3CexA` after one tick of 100 adjusted seconds: the ball jumped to
its target 1 and the all-at-target check cleared the flag. -/
def c3CexA1 : Flow :=
  { animating := false,
    lastUpdate := 100000,
    targetPositions := [("A", 1)],
    ballPositions := [("A", 1)],
    balls := ["A"],
    curves := ["A"],
    pipelines := ["A"],
    tubes := ["A"] }

/-- `c3CexB` after one tick of 100 adjusted seconds: the lazy
`createFlowPath` reset the target of `"A"` to 0 before the position
write landed the pre-computed 1, so the flag stays set. -/
def c3CexB1 : Flow :=
  { animating := true,
    lastUpdate := 100000,
    targetPositions := [("A", 0)],
    ballPositions := [("A", 1)],
    balls := ["A"],
    curves := ["A"],
    pipelines := ["A"],
    tubes := ["A"] }

/-- `c3CexB1` after a second such tick: the ball walked back to the
reset target 0 and the flag cleared. -/
def c3CexB2 : Flow :=
  { animating := false,
    lastUpdate := 200000,
    targetPositions := [("A", 0)],
    ballPositions := [("A", 0)],
    balls := ["A"],
    curves := ["A"],
    pipelines := ["A"],
    tubes := ["A"] }


/-! ## Lemmas and claim theorems -/
theorem lookupA_setA_self {α : Type} (k : String) (v : α) (l : List (String × α)) :
    lookupA k (setA k v l) = some v := by
  induction l with
  | nil => simp [setA, lookupA]
  | cons hd tl ih =>
    obtain ⟨k', v'⟩ := hd
    by_cases h : k' = k
    · simp [setA, h, lookupA]
    · simp [setA, h, lookupA, ih]

theorem lookupA_setA_ne {α : Type} {k k' : String} (h : k ≠ k') (v : α)
    (l : List (String × α)) : lookupA k (setA k' v l) = lookupA k l := by
  have h' : k' ≠ k := Ne.symm h
  induction l with
  | nil => simp [setA, lookupA, h']
  | cons hd tl ih =>
    obtain ⟨k₀, v₀⟩ := hd
    by_cases h0 : k₀ = k'
    · subst h0
      simp [setA, lookupA, h']
    · simp [setA, h0, lookupA, ih]

theorem setA_map_fst_of_mem {α : Type} {k : String} {l : List (String × α)}
    (h : k ∈ l.map Prod.fst) (v : α) : (setA k v l).map Prod.fst = l.map Prod.fst := by
  induction l with
  | nil => simp at h
  | cons hd tl ih =>
    obtain ⟨k', v'⟩ := hd
    by_cases h0 : k' = k
    · simp [setA, h0]
    · have hk : k ∈ tl.map Prod.fst := by
        simp only [List.map_cons, List.mem_cons] at h
        rcases h with h | h
        · exact absurd h.symm h0
        · exact h
      simp [setA, h0, ih hk]

theorem lookupA_isSome_iff {α : Type} (k : String) (l : List (String × α)) :
    (lookupA k l).isSome = true ↔ k ∈ l.map Prod.fst := by
  induction l with
  | nil => simp [lookupA]
  | cons hd tl ih =>
    obtain ⟨k', v'⟩ := hd
    by_cases h : k' = k
    · simp [lookupA, h]
    · have h' : k ≠ k' := Ne.symm h
      simp [lookupA, h, ih, h']

theorem perm_orderedInsertB {α : Type} (le : α → α → Bool) (a : α) (l : List α) :
    (orderedInsertB le a l).Perm (a :: l) := by
  induction l with
  | nil => simp [orderedInsertB]
  | cons b l ih =>
    by_cases h : le a b
    · simp [orderedInsertB, h]
    · simp only [orderedInsertB, h, Bool.false_eq_true, if_false]
      exact (ih.cons b).trans (List.Perm.swap a b l)

theorem perm_insertionSortB {α : Type} (le : α → α → Bool) (l : List α) :
    (insertionSortB le l).Perm l := by
  induction l with
  | nil => simp [insertionSortB]
  | cons a l ih =>
    exact (perm_orderedInsertB le a (insertionSortB le l)).trans (ih.cons a)

theorem pairwise_orderedInsertB {α : Type} (le : α → α → Bool) (a : α) (l : List α)
    (htot : ∀ x ∈ a :: l, ∀ y ∈ a :: l, le x y = true ∨ le y x = true)
    (htrans : ∀ x ∈ a :: l, ∀ y ∈ a :: l, ∀ z ∈ a :: l,
      le x y = true → le y z = true → le x z = true)
    (hl : l.Pairwise (fun x y => le x y = true)) :
    (orderedInsertB le a l).Pairwise (fun x y => le x y = true) := by
  induction l with
  | nil => simp [orderedInsertB]
  | cons b l ih =>
    rcases List.pairwise_cons.mp hl with ⟨hb, hl'⟩
    have hsub : ∀ x ∈ a :: l, x ∈ a :: b :: l := by
      intro x hx
      rcases List.mem_cons.mp hx with rfl | hx
      · simp
      · simp [hx]
    by_cases h : le a b
    · rw [orderedInsertB, if_pos h]
      refine List.pairwise_cons.mpr ⟨?_, hl⟩
      intro x hx
      rcases List.mem_cons.mp hx with rfl | hx
      · exact h
      · exact htrans a (by simp) b (by simp) x (by simp [hx]) h (hb x hx)
    · rw [orderedInsertB, if_neg h]
      have hba : le b a = true := (htot a (by simp) b (by simp)).resolve_left h
      refine List.pairwise_cons.mpr ⟨?_, ?_⟩
      · intro x hx
        rcases List.mem_cons.mp ((perm_orderedInsertB le a l).mem_iff.mp hx) with rfl | hx
        · exact hba
        · exact hb x hx
      · refine ih ?_ ?_ hl'
        · intro x hx y hy
          exact htot x (hsub x hx) y (hsub y hy)
        · intro x hx y hy z hz
          exact htrans x (hsub x hx) y (hsub y hy) z (hsub z hz)

theorem pairwise_insertionSortB {α : Type} (le : α → α → Bool) (l : List α)
    (htot : ∀ x ∈ l, ∀ y ∈ l, le x y = true ∨ le y x = true)
    (htrans : ∀ x ∈ l, ∀ y ∈ l, ∀ z ∈ l,
      le x y = true → le y z = true → le x z = true) :
    (insertionSortB le l).Pairwise (fun x y => le x y = true) := by
  induction l with
  | nil => simp [insertionSortB]
  | cons a l ih =>
    have hmem : ∀ x ∈ a :: insertionSortB le l, x ∈ a :: l := by
      intro x hx
      rcases List.mem_cons.mp hx with rfl | hx
      · simp
      · exact List.mem_cons.mpr (Or.inr ((perm_insertionSortB le l).mem_iff.mp hx))
    refine pairwise_orderedInsertB le a (insertionSortB le l) ?_ ?_ ?_
    · intro x hx y hy
      exact htot x (hmem x hx) y (hmem y hy)
    · intro x hx y hy z hz
      exact htrans x (hmem x hx) y (hmem y hy) z (hmem z hz)
    · refine ih ?_ ?_
      · intro x hx y hy
        exact htot x (by simp [hx]) y (by simp [hy])
      · intro x hx y hy z hz
        exact htrans x (by simp [hx]) y (by simp [hy]) z (by simp [hz])

theorem filter_orderedInsertB_pos {α : Type} (le : α → α → Bool) (p : α → Bool)
    {a : α} (hpa : p a = true) (hcond : ∀ b, p b = true → le a b = true)
    (l : List α) : (orderedInsertB le a l).filter p = a :: l.filter p := by
  induction l with
  | nil => simp [orderedInsertB, hpa]
  | cons b l ih =>
    by_cases h : le a b
    · simp [orderedInsertB, h, hpa]
    · have hpb : p b = false := by
        by_contra hc
        exact h (hcond b (by simpa using hc))
      simp [orderedInsertB, h, List.filter_cons, hpb, ih]

theorem filter_orderedInsertB_neg {α : Type} (le : α → α → Bool) (p : α → Bool)
    {a : α} (hpa : p a = false) (l : List α) :
    (orderedInsertB le a l).filter p = l.filter p := by
  induction l with
  | nil => simp [orderedInsertB, hpa]
  | cons b l ih =>
    by_cases h : le a b
    · simp [orderedInsertB, h, hpa]
    · simp [orderedInsertB, h, List.filter_cons, ih]

theorem filter_insertionSortB {α : Type} (le : α → α → Bool) (p : α → Bool)
    (hcond : ∀ a b, p a = true → p b = true → le a b = true)
    (l : List α) : (insertionSortB le l).filter p = l.filter p := by
  induction l with
  | nil => simp [insertionSortB]
  | cons a l ih =>
    by_cases hpa : p a
    · rw [insertionSortB,
        filter_orderedInsertB_pos le p hpa (fun b hb => hcond a b hpa hb), ih]
      simp [List.filter_cons, hpa]
    · rw [insertionSortB,
        filter_orderedInsertB_neg le p (by simpa using hpa), ih]
      simp [List.filter_cons, hpa]

theorem lookupA_pushA_self (k : String) (v : Step) (l : List (String × List Step)) :
    lookupA k (pushA k v l) = some ((lookupA k l).getD [] ++ [v]) := by
  induction l with
  | nil => simp [pushA, lookupA]
  | cons hd tl ih =>
    obtain ⟨k', l'⟩ := hd
    by_cases h : k' = k
    · simp [pushA, h, lookupA]
    · simp [pushA, h, lookupA, ih]

theorem lookupA_pushA_ne {k k' : String} (h : k ≠ k') (v : Step)
    (l : List (String × List Step)) : lookupA k (pushA k' v l) = lookupA k l := by
  have h' : k' ≠ k := Ne.symm h
  induction l with
  | nil => simp [pushA, lookupA, h']
  | cons hd tl ih =>
    obtain ⟨k₀, l₀⟩ := hd
    by_cases h0 : k₀ = k'
    · subst h0
      simp [pushA, lookupA, h']
    · simp [pushA, h0, lookupA, ih]

/-- The partitioning fold collects, per key, exactly the matching
records in input order (appended after whatever the accumulator already
holds for that key). -/
theorem lookupA_groupFold (keyOf : Step → Option String) (k : String) :
    ∀ (steps : List Step) (acc : List (String × List Step)),
      lookupA k (steps.foldl (groupStep keyOf) acc) =
        match lookupA k acc with
        | some l => some (l ++ withKey keyOf k steps)
        | none => if withKey keyOf k steps = [] then none
                  else some (withKey keyOf k steps) := by
  intro steps
  induction steps with
  | nil =>
    intro acc
    cases h : lookupA k acc with
    | none => simp [withKey, h]
    | some l => simp [withKey, h]
  | cons s rest ih =>
    intro acc
    rw [List.foldl_cons]
    cases hk : keyOf s with
    | none =>
      have hwk : withKey keyOf k (s :: rest) = withKey keyOf k rest := by
        simp [withKey, List.filter_cons, hk]
      rw [show groupStep keyOf acc s = acc from by simp [groupStep, hk], ih, hwk]
    | some k0 =>
      by_cases hkk : k0 = k
      · rw [hkk] at hk
        have hwk : withKey keyOf k (s :: rest) = s :: withKey keyOf k rest := by
          simp [withKey, List.filter_cons, hk]
        rw [show groupStep keyOf acc s = pushA k s acc from by simp [groupStep, hk],
          ih, lookupA_pushA_self, hwk]
        cases h : lookupA k acc with
        | none => simp
        | some l => simp
      · have hne : k ≠ k0 := Ne.symm hkk
        have hwk : withKey keyOf k (s :: rest) = withKey keyOf k rest := by
          simp only [withKey, List.filter_cons]
          rw [if_neg (by simp [hk]; exact hkk)]
        rw [show groupStep keyOf acc s = pushA k0 s acc from by simp [groupStep, hk],
          ih, lookupA_pushA_ne hne, hwk]

theorem lookupA_mapSort (k : String) (l : List (String × List Step)) :
    lookupA k (l.map (fun kv => (kv.1, sortSteps kv.2))) =
      (lookupA k l).map sortSteps := by
  induction l with
  | nil => simp [lookupA]
  | cons hd tl ih =>
    obtain ⟨k', l'⟩ := hd
    by_cases h : k' = k
    · simp [lookupA, h]
    · simp [lookupA, h, ih]

/-- Each group produced by `groupBy` is the stable sort of the matching
input records. -/
theorem lookupA_groupBy (keyOf : Step → Option String) (k : String)
    (steps : List Step) :
    lookupA k (groupBy keyOf steps) =
      if withKey keyOf k steps = [] then none
      else some (sortSteps (withKey keyOf k steps)) := by
  rw [groupBy, lookupA_mapSort, lookupA_groupFold]
  simp only [lookupA]
  by_cases h : withKey keyOf k steps = []
  · simp [h]
  · simp [h]

/-! ## Claim theorems -/

/-- C10: `getColorForStatus` is a total pure function of the status
string returning red (`0xff0000`) exactly for `'reconcile-error'` and
green (`0x00ff00`) for every other status, including `'failed'`,
`'started'`, `'completed'` and unknown strings. -/
theorem c10_color_classification (status : String) :
    getColorForStatus status =
      if status = "reconcile-error" then 0xff0000 else 0x00ff00 := by
  by_cases h : status = "reconcile-error"
  · subst h; rfl
  · rw [if_neg h]
    unfold getColorForStatus
    split <;> simp_all

/-- C7 counterexample: `clearAllPipelines` does not reset the
engine-wide active key — on a state whose active key is `"A"` it is
still `"A"` (not none) afterwards, contrary to the claim. -/
theorem c7_counterexample :
    (clearAllPipelines
      { activePipelineId := some "A", balls := ["A"],
        ballPositions := [("A", 0)] }).activePipelineId = some "A" ∧
    (some "A" ≠ (none : Option String)) :=
  ⟨rfl, by decide⟩

/-- C7 (amended): `clearAllPipelines` empties every per-key collection
(curves, tubes, balls, current/target positions, step indices, pipeline
registries, markers) and resets the cached current step to none, but it
leaves `activePipelineId` (and the raw step list) unchanged; the active
key is reset separately by `setGroupingMode` after it calls
`clearAllPipelines`. -/
theorem c7_clearAllPipelines (s : Flow) :
    (clearAllPipelines s).pipelineObjects = [] ∧
    (clearAllPipelines s).pipelines = [] ∧
    (clearAllPipelines s).tubes = [] ∧
    (clearAllPipelines s).curves = [] ∧
    (clearAllPipelines s).balls = [] ∧
    (clearAllPipelines s).ballPositions = [] ∧
    (clearAllPipelines s).targetPositions = [] ∧
    (clearAllPipelines s).stepMarkers = [] ∧
    (clearAllPipelines s).stepPositions = [] ∧
    (clearAllPipelines s).currentStepIndices = [] ∧
    (clearAllPipelines s).currentStep = none ∧
    (clearAllPipelines s).activePipelineId = s.activePipelineId ∧
    (clearAllPipelines s).steps = s.steps :=
  ⟨rfl, rfl, rfl, rfl, rfl, rfl, rfl, rfl, rfl, rfl, rfl, rfl, rfl⟩

/-- C5: with an active group of `total ≥ 1` ordered steps and an
in-range stored index, `moveToNextStep` at the last index and
`moveToPreviousStep` at index 0 return false and change nothing, and
otherwise they return true, move the index by one, and set the group's
target position to `newIndex / max(1, total - 1)` while leaving the
current (ball) positions untouched. -/
theorem c5_boundary_and_step (s : Flow) (k : String) (steps : List Step)
    (hactive : s.activePipelineId = some k)
    (hsteps : lookupA k (getGroupedSteps s) = some steps)
    (hne : steps ≠ [])
    (hidx : (lookupA k s.currentStepIndices).getD 0 ≤ steps.length - 1) :
    (((lookupA k s.currentStepIndices).getD 0 = steps.length - 1 →
        moveToNextStep s = (false, s)) ∧
     ((lookupA k s.currentStepIndices).getD 0 < steps.length - 1 →
        (moveToNextStep s).1 = true ∧
        lookupA k (moveToNextStep s).2.currentStepIndices =
          some ((lookupA k s.currentStepIndices).getD 0 + 1) ∧
        lookupA k (moveToNextStep s).2.targetPositions =
          some (normPos ((lookupA k s.currentStepIndices).getD 0 + 1) steps.length) ∧
        (moveToNextStep s).2.ballPositions = s.ballPositions)) ∧
    (((lookupA k s.currentStepIndices).getD 0 = 0 →
        moveToPreviousStep s = (false, s)) ∧
     (0 < (lookupA k s.currentStepIndices).getD 0 →
        (moveToPreviousStep s).1 = true ∧
        lookupA k (moveToPreviousStep s).2.currentStepIndices =
          some ((lookupA k s.currentStepIndices).getD 0 - 1) ∧
        lookupA k (moveToPreviousStep s).2.targetPositions =
          some (normPos ((lookupA k s.currentStepIndices).getD 0 - 1) steps.length) ∧
        (moveToPreviousStep s).2.ballPositions = s.ballPositions)) := by
  have hie : steps.isEmpty = false := by
    cases steps with
    | nil => exact absurd rfl hne
    | cons a l => rfl
  refine ⟨⟨?_, ?_⟩, ?_, ?_⟩
  · intro hlast
    simp only [moveToNextStep, hactive, hsteps, hie, Bool.false_eq_true, if_false,
      hlast, le_refl, if_true]
  · intro hlt
    have hnotle : ¬ (steps.length - 1 ≤ (lookupA k s.currentStepIndices).getD 0) :=
      not_le_of_lt hlt
    simp only [moveToNextStep, hactive, hsteps, hie, Bool.false_eq_true, if_false,
      hnotle, if_false]
    simp [lookupA_setA_self]
  · intro hzero
    simp only [moveToPreviousStep, hactive, hsteps, hie, Bool.false_eq_true, if_false,
      hzero, if_true]
  · intro hpos
    have hnz : ¬ ((lookupA k s.currentStepIndices).getD 0 = 0) := Nat.pos_iff_ne_zero.mp hpos
    simp only [moveToPreviousStep, hactive, hsteps, hie, Bool.false_eq_true, if_false,
      hnz, if_false]
    simp [lookupA_setA_self]

/-- C5 witness: on a concrete two-step active group at the last index,
`moveToNextStep` is a no-op returning false and `moveToPreviousStep`
steps back to index 0 with target position 0. -/
theorem c5_witness :
    lookupA "A" (getGroupedSteps c5State) = some [stepA1, stepA2] ∧
    moveToNextStep c5State = (false, c5State) ∧
    lookupA "A" (moveToPreviousStep c5State).2.currentStepIndices = some 0 := by
  have h := c5_boundary_and_step c5State "A" [stepA1, stepA2]
    (by decide) (by decide) (by decide) (by decide)
  exact ⟨by decide, h.1.1 (by decide), (h.2.2 (by decide)).2.1⟩

/-- C6 counterexample: `setActivePipeline` checks "already active"
before existence, so on a state whose active key `"A"` has no
registered pipeline at all (every collection empty — reachable because
`clearAllPipelines` keeps the active key), calling it with `"A"`
returns true, not false as the claim requires for a key with no
registered pipeline. -/
theorem c6_counterexample :
    ({ activePipelineId := some "A" } : Flow).pipelineObjects = [] ∧
    ({ activePipelineId := some "A" } : Flow).tubes = [] ∧
    ({ activePipelineId := some "A" } : Flow).curves = [] ∧
    ({ activePipelineId := some "A" } : Flow).pipelines = [] ∧
    (setActivePipeline "A" { activePipelineId := some "A" }).1 = true := by
  refine ⟨rfl, rfl, rfl, rfl, ?_⟩
  decide

/-- C6 (amended): `setActivePipeline` first returns true as a no-op
when the key is already active — even if that key has no registered
pipeline; otherwise a key registered in no collection returns false
with no state change; otherwise it switches the active key, and in
manual mode it resolves and caches the current step at the group's
`currentStepIndex`, defaulting the index to 0 if unset, also setting
the group's target position and the animating flag. -/
theorem c6_setActivePipeline (s : Flow) (k : String) :
    (s.activePipelineId = some k → setActivePipeline k s = (true, s)) ∧
    (s.activePipelineId ≠ some k →
      k ∉ s.pipelineObjects → k ∉ s.tubes → k ∉ s.curves → k ∉ s.pipelines →
      setActivePipeline k s = (false, s)) ∧
    (s.activePipelineId ≠ some k →
      (k ∈ s.pipelineObjects ∨ k ∈ s.tubes ∨ k ∈ s.curves ∨ k ∈ s.pipelines) →
      s.manualControl = false →
      setActivePipeline k s = (true, { s with activePipelineId := some k })) ∧
    (∀ steps : List Step,
      s.activePipelineId ≠ some k →
      (k ∈ s.pipelineObjects ∨ k ∈ s.tubes ∨ k ∈ s.curves ∨ k ∈ s.pipelines) →
      s.manualControl = true →
      lookupA k (getGroupedSteps s) = some steps →
      steps ≠ [] →
      (lookupA k s.currentStepIndices).getD 0 < steps.length →
      (setActivePipeline k s).1 = true ∧
      (setActivePipeline k s).2.activePipelineId = some k ∧
      (setActivePipeline k s).2.currentStep =
        some (enrichStepWithMetadata
          (steps.getD ((lookupA k s.currentStepIndices).getD 0) {})
          ((lookupA k s.currentStepIndices).getD 0) steps.length) ∧
      lookupA k (setActivePipeline k s).2.currentStepIndices =
        some ((lookupA k s.currentStepIndices).getD 0) ∧
      lookupA k (setActivePipeline k s).2.targetPositions =
        some (normPos ((lookupA k s.currentStepIndices).getD 0) steps.length) ∧
      (setActivePipeline k s).2.animating = true) := by
  refine ⟨?_, ?_, ?_, ?_⟩
  · intro hactive
    simp [setActivePipeline, hactive]
  · intro hactive h1 h2 h3 h4
    have hnot : ¬(k ∈ s.pipelineObjects ∨ k ∈ s.tubes ∨ k ∈ s.curves ∨
        k ∈ s.pipelines) := by
      intro h
      rcases h with h | h | h | h
      exacts [h1 h, h2 h, h3 h, h4 h]
    rw [setActivePipeline, if_neg hactive, if_pos hnot]
  · intro hactive hreg hman
    rw [setActivePipeline, if_neg hactive, if_neg (not_not_intro hreg)]
    simp only [hman, Bool.false_eq_true, if_false]
  · intro steps hactive hreg hman hsteps hne hidx
    have hie : steps.isEmpty = false := by
      cases steps with
      | nil => exact absurd rfl hne
      | cons a l => rfl
    have hgs : lookupA k (getGroupedSteps { s with activePipelineId := some k }) =
        some steps := hsteps
    simp only [hman] at hgs
    rw [setActivePipeline, if_neg hactive, if_neg (not_not_intro hreg)]
    simp only [hman, if_true, hgs, hie, Bool.false_eq_true, if_false]
    cases hci : lookupA k s.currentStepIndices with
    | some i =>
      simp only [hci, Option.getD_some] at hidx
      dsimp only
      simp only [Option.getD_some, if_pos hidx]
      simp [hci, lookupA_setA_self]
    | none =>
      simp only [hci, Option.getD_none] at hidx
      dsimp only
      simp only [Option.getD_none, if_pos hidx]
      simp [lookupA_setA_self]

/-- C6 witness: on a concrete manual-mode state, selecting the
registered non-active key `"B"` succeeds, switches the active key and
caches step index 0. -/
theorem c6_witness :
    c6WState.activePipelineId ≠ some "B" ∧
    (setActivePipeline "B" c6WState).1 = true ∧
    (setActivePipeline "B" c6WState).2.activePipelineId = some "B" ∧
    lookupA "B" (setActivePipeline "B" c6WState).2.currentStepIndices = some 0 ∧
    (setActivePipeline "B" c6WState).2.animating = true := by
  have h := (c6_setActivePipeline c6WState "B").2.2.2 [stepB1]
    (by decide) (by decide) (by decide) (by decide) (by decide) (by decide)
  refine ⟨by decide, h.1, h.2.1, ?_, h.2.2.2.2.2⟩
  have := h.2.2.2.1
  simpa using this

/-- `setActivePipeline` writes a step index only to default a missing
one to 0: any key's index lookup is afterwards either unchanged or
`some 0`. -/
theorem setActivePipeline_indices (k' : String) (st : Flow) (k : String) :
    lookupA k (setActivePipeline k' st).2.currentStepIndices =
      lookupA k st.currentStepIndices ∨
    lookupA k (setActivePipeline k' st).2.currentStepIndices = some 0 := by
  rw [setActivePipeline]
  split
  · exact Or.inl rfl
  · split
    · exact Or.inl rfl
    · dsimp only
      split
      · split
        · exact Or.inl rfl
        · split
          · exact Or.inl rfl
          · cases hci : lookupA k' st.currentStepIndices with
            | some i =>
              simp only [hci]
              split
              · exact Or.inl rfl
              · exact Or.inl rfl
            | none =>
              simp only [hci]
              by_cases hkk : k = k'
              · subst hkk
                split
                · exact Or.inr (lookupA_setA_self _ _ _)
                · exact Or.inr (lookupA_setA_self _ _ _)
              · split
                · exact Or.inl (lookupA_setA_ne hkk _ _)
                · exact Or.inl (lookupA_setA_ne hkk _ _)
      · exact Or.inl rfl

/-- Once a key's stored index is 0, the manual-navigation
index-initialization loop keeps it 0. -/
theorem foldInit_keeps (ids : List String) (st : Flow) (k : String)
    (h : lookupA k st.currentStepIndices = some 0) :
    lookupA k (initNavIndexLoop ids st).currentStepIndices = some 0 := by
  induction ids generalizing st with
  | nil => simpa [initNavIndexLoop] using h
  | cons k' rest ih =>
    rw [initNavIndexLoop, List.foldl_cons]
    show lookupA k (initNavIndexLoop rest _).currentStepIndices = some 0
    apply ih
    by_cases hkk : k = k'
    · subst hkk
      rw [if_pos (by simp [h])]
      exact h
    · by_cases hs : (lookupA k' st.currentStepIndices).isSome
      · rw [if_pos hs]
        exact h
      · rw [if_neg hs]
        simpa [lookupA_setA_ne hkk] using h

/-- A key in the id list whose stored index is absent or 0 ends the
index-initialization loop with index 0. -/
theorem foldInit_mem (ids : List String) (st : Flow) (k : String) (hk : k ∈ ids)
    (h : lookupA k st.currentStepIndices = none ∨
      lookupA k st.currentStepIndices = some 0) :
    lookupA k (initNavIndexLoop ids st).currentStepIndices = some 0 := by
  induction ids generalizing st with
  | nil => simp at hk
  | cons k' rest ih =>
    rw [initNavIndexLoop, List.foldl_cons]
    show lookupA k (initNavIndexLoop rest _).currentStepIndices = some 0
    rcases List.mem_cons.mp hk with rfl | hmem
    · have h2 : lookupA k (((if (lookupA k st.currentStepIndices).isSome then st
          else { st with
            currentStepIndices := setA k 0 st.currentStepIndices }) :
          Flow).currentStepIndices) = some 0 := by
        rcases h with h | h
        · rw [if_neg (by simp [h])]
          exact lookupA_setA_self _ _ _
        · rw [if_pos (by simp [h])]
          exact h
      exact foldInit_keeps rest _ k h2
    · refine ih _ hmem ?_
      by_cases hs : (lookupA k' st.currentStepIndices).isSome
      · rw [if_pos hs]
        exact h
      · rw [if_neg hs]
        by_cases hkk : k = k'
        · subst hkk
          exact Or.inr (lookupA_setA_self _ _ _)
        · rcases h with h | h
          · exact Or.inl (by rw [show ({ st with
              currentStepIndices := setA k' 0 st.currentStepIndices } :
              Flow).currentStepIndices = setA k' 0 st.currentStepIndices from rfl,
              lookupA_setA_ne hkk]; exact h)
          · exact Or.inr (by rw [show ({ st with
              currentStepIndices := setA k' 0 st.currentStepIndices } :
              Flow).currentStepIndices = setA k' 0 st.currentStepIndices from rfl,
              lookupA_setA_ne hkk]; exact h)

/-- C4 counterexample: in the final revision, entering manual mode on a
pipeline whose ball sits at position 1 of a two-step group initializes
its missing step index to 0, although index 1 is strictly nearer to the
ball's current position — contradicting the nearest-step rule the claim
states. -/
theorem c4_counterexample :
    lookupA "A" (initializeManualNavigation c4State).currentStepIndices =
      some 0 ∧
    lookupA "A" c4State.ballPositions = some 1 ∧
    |(1 : ℚ) - normPos 1 2| < |(1 : ℚ) - normPos 0 2| := by
  refine ⟨by decide, by decide, by norm_num [normPos, jsMax]⟩

/-- C4 (amended): on the transition to manual navigation mode, every
known group key that has no `currentStepIndex` yet has its index
initialized to 0, regardless of the ball's current position. -/
theorem c4_initializeManualNavigation (s : Flow) (k : String)
    (hman : s.manualControl = true)
    (hk : k ∈ s.pipelineObjects)
    (hidx : lookupA k s.currentStepIndices = none) :
    lookupA k (initializeManualNavigation s).currentStepIndices = some 0 := by
  have hiab : ∀ s3 : Flow, (initNavActiveBlock s3).currentStepIndices =
      s3.currentStepIndices := by
    intro s3
    rw [initNavActiveBlock]
    split
    · rfl
    · split
      · rfl
      · split
        · rfl
        · rfl
  rw [initializeManualNavigation]
  rw [if_neg (by simp [hman])]
  have hne : s.pipelineObjects.isEmpty = false := by
    cases hpo : s.pipelineObjects with
    | nil => rw [hpo] at hk; simp at hk
    | cons a l => rfl
  simp only [hne, Bool.false_eq_true, if_false]
  rw [hiab]
  refine foldInit_mem _ _ k hk ?_
  cases hap : s.activePipelineId with
  | none =>
    dsimp only
    rcases setActivePipeline_indices (s.pipelineObjects.headD "")
      { s with animating := false } k with hset | hset <;> rw [hap] at hset
    · exact Or.inl (hset.trans hidx)
    · exact Or.inr hset
  | some a =>
    dsimp only
    by_cases hcond : a ≠ "" ∧ a ∈ s.pipelineObjects
    · rw [if_pos hcond]
      exact Or.inl hidx
    · rw [if_neg hcond]
      rcases setActivePipeline_indices (s.pipelineObjects.headD "")
        { s with animating := false } k with hset | hset <;> rw [hap] at hset
      · exact Or.inl (hset.trans hidx)
      · exact Or.inr hset

/-- C4 witness: on the concrete manual-mode state, the missing index of
pipeline `"A"` is initialized to 0. -/
theorem c4_witness :
    c4State.manualControl = true ∧
    lookupA "A" (initializeManualNavigation c4State).currentStepIndices =
      some 0 :=
  ⟨rfl, c4_initializeManualNavigation c4State "A" rfl (by decide) (by decide)⟩

/-- `jsAbs` agrees with the mathematical absolute value. -/
theorem jsAbs_eq_abs (q : ℚ) : jsAbs q = |q| := by
  rw [jsAbs]
  rcases lt_or_ge q 0 with h | h
  · rw [if_pos h, abs_of_neg h]
  · rw [if_neg (not_lt_of_ge h), abs_of_nonneg h]

/-- `jsMax` agrees with the mathematical maximum. -/
theorem jsMax_eq_max (a b : ℚ) : jsMax a b = max a b := by
  rw [jsMax]
  rcases lt_or_ge a b with h | h
  · rw [if_pos h, max_eq_right (le_of_lt h)]
  · rw [if_neg (not_lt_of_ge h), max_eq_left h]

/-- `jsMin` agrees with the mathematical minimum. -/
theorem jsMin_eq_min (a b : ℚ) : jsMin a b = min a b := by
  rw [jsMin]
  rcases lt_or_ge a b with h | h
  · rw [if_pos h, min_eq_left (le_of_lt h)]
  · rw [if_neg (not_lt_of_ge h), min_eq_right h]

/-- Invariant of the closest-step scan after processing indices
`0, ..., m-1`: the running distance only shrinks below its initial
value 1 by pointing at a strictly-first minimizer of the processed
prefix; while it is still 1, the running index is the initial 0 and no
processed index achieved a distance below 1. -/
theorem closestScan_invariant (pos : ℚ) (n : ℕ) :
    ∀ (m : ℕ) (b : ℕ) (d : ℚ),
      (List.range m).foldl (scanStep pos n) (0, 1) = (b, d) →
      d ≤ 1 ∧
      (d < 1 → b < m ∧ jsAbs (pos - normPos b n) = d ∧
        (∀ i < m, d ≤ jsAbs (pos - normPos i n)) ∧
        (∀ i < b, d < jsAbs (pos - normPos i n))) ∧
      (d = 1 → b = 0 ∧ ∀ i < m, 1 ≤ jsAbs (pos - normPos i n)) := by
  intro m
  induction m with
  | zero =>
    intro b d h
    simp only [List.range_zero, List.foldl_nil] at h
    injection h with hb hd
    subst hb
    subst hd
    refine ⟨le_refl 1, ?_, ?_⟩
    · intro hlt
      exact absurd hlt (lt_irrefl 1)
    · intro _
      exact ⟨rfl, fun i hi => absurd hi (Nat.not_lt_zero i)⟩
  | succ m ih =>
    intro b d h
    rw [List.range_succ, List.foldl_append, List.foldl_cons, List.foldl_nil] at h
    rcases h0 : (List.range m).foldl (scanStep pos n) (0, 1) with ⟨b0, d0⟩
    rw [h0, scanStep] at h
    dsimp only at h
    obtain ⟨hle0, hlt0, heq0⟩ := ih b0 d0 h0
    have hd0le : ∀ i, i < m → d0 ≤ jsAbs (pos - normPos i n) := by
      intro i hi
      rcases lt_or_eq_of_le hle0 with hd0 | hd0
      · exact (hlt0 hd0).2.2.1 i hi
      · rw [hd0]
        exact (heq0 hd0).2 i hi
    by_cases hc : jsAbs (pos - normPos m n) < d0
    · rw [if_pos hc] at h
      injection h with hb hd
      subst hb
      subst hd
      refine ⟨le_of_lt (lt_of_lt_of_le hc hle0), ?_, ?_⟩
      · intro _
        refine ⟨Nat.lt_succ_self _, rfl, ?_, ?_⟩
        · intro i hi
          rcases Nat.lt_succ_iff_lt_or_eq.mp hi with hi | rfl
          · exact le_of_lt (lt_of_lt_of_le hc (hd0le i hi))
          · exact le_refl _
        · intro i hi
          exact lt_of_lt_of_le hc (hd0le i hi)
      · intro hd1
        exact absurd (hd1 ▸ lt_of_lt_of_le hc hle0) (lt_irrefl 1)
    · rw [if_neg hc] at h
      injection h with hb hd
      subst hb
      subst hd
      have hge : d0 ≤ jsAbs (pos - normPos m n) := le_of_not_lt hc
      refine ⟨hle0, ?_, ?_⟩
      · intro hd
        obtain ⟨hb0m, hfb0, hall, hstrict⟩ := hlt0 hd
        refine ⟨Nat.lt_succ_of_lt hb0m, hfb0, ?_, hstrict⟩
        intro i hi
        rcases Nat.lt_succ_iff_lt_or_eq.mp hi with hi | rfl
        · exact hall i hi
        · exact hge
      · intro hd
        obtain ⟨hb00, hall⟩ := heq0 hd
        refine ⟨hb00, ?_⟩
        intro i hi
        rcases Nat.lt_succ_iff_lt_or_eq.mp hi with hi | rfl
        · exact hall i hi
        · exact hd ▸ hge

/-- The closest-step index is always in range for a nonempty group. -/
theorem closestIndex_lt (pos : ℚ) (n : ℕ) (hn : 0 < n) :
    closestIndex pos n < n := by
  rcases h0 : closestScan pos n with ⟨b, d⟩
  rw [closestScan] at h0
  have hinv := closestScan_invariant pos n n b d h0
  have hci : closestIndex pos n = b := by
    rw [closestIndex, closestScan, h0]
  rw [hci]
  rcases lt_or_eq_of_le hinv.1 with hd | hd
  · exact (hinv.2.1 hd).1
  · rw [(hinv.2.2 hd).1]
    exact hn

/-- For a ball position in `[0,1]`, the closest-step scan returns the
least index minimizing the distance to the step's normalized
position. -/
theorem closestIndex_spec (pos : ℚ) (n : ℕ) (_hn : 0 < n)
    (hp0 : 0 ≤ pos) (hp1 : pos ≤ 1) :
    (∀ i < n, jsAbs (pos - normPos (closestIndex pos n) n) ≤
      jsAbs (pos - normPos i n)) ∧
    (∀ i < closestIndex pos n, jsAbs (pos - normPos (closestIndex pos n) n) <
      jsAbs (pos - normPos i n)) := by
  rcases h0 : closestScan pos n with ⟨b, d⟩
  rw [closestScan] at h0
  have hinv := closestScan_invariant pos n n b d h0
  have hci : closestIndex pos n = b := by
    rw [closestIndex, closestScan, h0]
  rw [hci]
  rcases lt_or_eq_of_le hinv.1 with hd | hd
  · obtain ⟨_, hfb, hall, hstrict⟩ := hinv.2.1 hd
    constructor
    · intro i hi
      rw [hfb]
      exact hall i hi
    · intro i hi
      rw [hfb]
      exact hstrict i hi
  · obtain ⟨hb0, hall⟩ := hinv.2.2 hd
    subst hb0
    constructor
    · intro i hi
      have h00 : normPos 0 n = 0 := by
        rw [normPos]
        simp
      rw [h00, sub_zero, jsAbs_eq_abs, abs_of_nonneg hp0]
      exact le_trans hp1 (hall i hi)
    · intro i hi
      exact absurd hi (Nat.not_lt_zero i)

/-- C9 counterexample: in automatic mode with no active key but a
cached current step, `getCurrentStep` does not return the cached step —
it falls back to the nearest step of the first tracked pipeline
(`"B"`). -/
theorem c9_counterexample :
    c9State.activePipelineId = none ∧
    c9State.currentStep = some (enrichStepWithMetadata stepA1 4 9) ∧
    getCurrentStep c9State = some (enrichStepWithMetadata stepB1 0 1) ∧
    getCurrentStep c9State ≠ c9State.currentStep := by
  have h1 : closestIndex 0 1 = 0 := by
    rw [closestIndex, closestScan, show List.range 1 = [0] from rfl,
      List.foldl_cons, List.foldl_nil, scanStep]
    norm_num [normPos, jsMax, jsAbs]
  have hsteps : lookupA "B" (getGroupedSteps c9State) = some [stepB1] := by
    decide
  have hmain : getCurrentStep c9State =
      some (enrichStepWithMetadata stepB1 0 1) := by
    rw [getCurrentStep]
    simp only [show c9State.manualControl = false from rfl,
      Bool.false_eq_true, if_false,
      show c9State.activePipelineId = none from rfl,
      show c9State.ballPositions = [("B", 0)] from rfl,
      List.isEmpty_cons, List.findSome?_cons, hsteps, h1]
    simp [h1]
  exact ⟨rfl, rfl, hmain, by rw [hmain]; decide⟩

/-- C9 (amended): in automatic mode, `getCurrentStep` with an active
key whose group is nonempty and whose ball position is tracked returns
the step at the least index minimizing
`|currentPosition - i/max(total-1, 1)|`; with no active key it falls
back to the first entry of `ballPositions` whose group is nonempty,
returning that group's nearest step rather than the cached one; the
cached step (or none) is returned only when no tracked pipeline
qualifies, in particular when `ballPositions` is empty. -/
theorem c9_getCurrentStep (s : Flow) (k : String) (steps : List Step) (pos : ℚ)
    (hman : s.manualControl = false) :
    (s.activePipelineId = some k →
      lookupA k (getGroupedSteps s) = some steps →
      steps ≠ [] →
      lookupA k s.ballPositions = some pos →
      0 ≤ pos → pos ≤ 1 →
      getCurrentStep s =
        some (enrichStepWithMetadata
          (steps.getD (closestIndex pos steps.length) {})
          (closestIndex pos steps.length) steps.length) ∧
      (∀ i < steps.length,
        |pos - normPos (closestIndex pos steps.length) steps.length| ≤
          |pos - normPos i steps.length|) ∧
      (∀ i < closestIndex pos steps.length,
        |pos - normPos (closestIndex pos steps.length) steps.length| <
          |pos - normPos i steps.length|)) ∧
    (∀ rest : List (String × ℚ),
      s.activePipelineId = none →
      s.ballPositions = (k, pos) :: rest →
      lookupA k (getGroupedSteps s) = some steps →
      steps ≠ [] →
      getCurrentStep s =
        some (enrichStepWithMetadata
          (steps.getD (closestIndex pos steps.length) {})
          (closestIndex pos steps.length) steps.length)) ∧
    (s.ballPositions = [] → getCurrentStep s = s.currentStep) := by
  refine ⟨?_, ?_, ?_⟩
  · intro hactive hsteps hne hpos hp0 hp1
    have hbie : s.ballPositions.isEmpty = false := by
      cases hb : s.ballPositions with
      | nil => rw [hb] at hpos; simp [lookupA] at hpos
      | cons a l => rfl
    have hlen : 0 < steps.length := List.length_pos.mpr hne
    have hlt := closestIndex_lt pos steps.length hlen
    refine ⟨?_, ?_, ?_⟩
    · rw [getCurrentStep]
      simp only [hman, Bool.false_eq_true, if_false, hactive, hsteps, hpos,
        hbie, hlt, if_true]
    · intro i hi
      rw [← jsAbs_eq_abs, ← jsAbs_eq_abs]
      exact (closestIndex_spec pos steps.length hlen hp0 hp1).1 i hi
    · intro i hi
      rw [← jsAbs_eq_abs, ← jsAbs_eq_abs]
      exact (closestIndex_spec pos steps.length hlen hp0 hp1).2 i hi
  · intro rest hactive hbp hsteps hne
    have hlen : 0 < steps.length := List.length_pos.mpr hne
    have hlt := closestIndex_lt pos steps.length hlen
    rw [getCurrentStep]
    simp only [hman, Bool.false_eq_true, if_false, hactive, hbp,
      List.isEmpty_cons, List.findSome?_cons, hsteps, hlt, if_true]
  · intro hbp
    rw [getCurrentStep]
    simp only [hman, Bool.false_eq_true, if_false, hbp, List.isEmpty_nil,
      if_true]

/-- C9 witness: on the concrete active two-step state with the ball at
position 3/4, `getCurrentStep` returns the enriched step at the
closest-scan index. -/
theorem c9_witness :
    c9WState.manualControl = false ∧
    getCurrentStep c9WState =
      some (enrichStepWithMetadata
        ([stepA1, stepA2].getD (closestIndex 1 [stepA1, stepA2].length) {})
        (closestIndex 1 [stepA1, stepA2].length) [stepA1, stepA2].length) :=
  ⟨rfl, ((c9_getCurrentStep c9WState "A" [stepA1, stepA2] 1 rfl).1
    rfl (by decide) (by decide) (by decide) (by norm_num) (by norm_num)).1⟩

/-- Characterization of a `groupBy` group: it is the stable insertion
sort of the matching records; filtering by any concrete parsed
timestamp recovers those records in input order (stability); and when
every member parses, the group is pairwise nondecreasing in parsed
time. -/
theorem groupBy_char (keyOf : Step → Option String) (steps : List Step)
    (k : String) (g : List Step)
    (hg : lookupA k (groupBy keyOf steps) = some g) :
    g = sortSteps (withKey keyOf k steps) ∧
    (∀ q : ℚ, g.filter (fun s => decide (timeNum s = some q)) =
      (withKey keyOf k steps).filter (fun s => decide (timeNum s = some q))) ∧
    ((∀ s ∈ g, (timeNum s).isSome = true) →
      g.Pairwise (fun a b => (timeNum a).getD 0 ≤ (timeNum b).getD 0)) := by
  rw [lookupA_groupBy] at hg
  by_cases hw : withKey keyOf k steps = []
  · rw [if_pos hw] at hg
    cases hg
  · rw [if_neg hw] at hg
    injection hg with hg
    subst hg
    refine ⟨rfl, ?_, ?_⟩
    · intro q
      rw [sortSteps]
      refine filter_insertionSortB stepLE _ ?_ _
      intro a b ha hb
      have ha' : timeNum a = some q := of_decide_eq_true ha
      have hb' : timeNum b = some q := of_decide_eq_true hb
      simp [stepLE, ha', hb']
    · intro hparse
      have hperm := perm_insertionSortB stepLE (withKey keyOf k steps)
      have hparse' : ∀ s ∈ withKey keyOf k steps, (timeNum s).isSome = true := by
        intro s hs
        exact hparse s (by rw [sortSteps]; exact hperm.mem_iff.mpr hs)
      have hpw := pairwise_insertionSortB stepLE (withKey keyOf k steps)
        (by
          intro x _ y _
          rcases hx' : timeNum x with _ | qx <;> rcases hy' : timeNum y with _ | qy <;>
            simp [stepLE, hx', hy']
          exact le_total qx qy)
        (by
          intro x hx y hy z hz hxy hyz
          obtain ⟨qx, hqx⟩ := Option.isSome_iff_exists.mp (hparse' x hx)
          obtain ⟨qy, hqy⟩ := Option.isSome_iff_exists.mp (hparse' y hy)
          obtain ⟨qz, hqz⟩ := Option.isSome_iff_exists.mp (hparse' z hz)
          simp only [stepLE, hqx, hqy, hqz, decide_eq_true_eq] at hxy hyz ⊢
          exact le_trans hxy hyz)
      rw [sortSteps]
      refine hpw.imp_of_mem ?_
      intro a b ha hb hab
      have ha' := hparse a (by rw [sortSteps]; exact ha)
      have hb' := hparse b (by rw [sortSteps]; exact hb)
      obtain ⟨qa, hqa⟩ := Option.isSome_iff_exists.mp ha'
      obtain ⟨qb, hqb⟩ := Option.isSome_iff_exists.mp hb'
      simp only [stepLE, hqa, hqb, decide_eq_true_eq] at hab
      simp [hqa, hqb, hab]

/-- C8 counterexample: the group for key `"A"` on input
`[stepA5, stepN]` keeps the unparsable-timestamp record `stepN` after
the epoch-5 record, but the claim's rule (unparsable sorts as epoch 0)
requires it before — the produced order is not ascending under the
claim's parse. -/
theorem c8_counterexample :
    lookupA "A" (getStepsByReconcileId [stepA5, stepN]) =
      some [stepA5, stepN] ∧
    claimTime stepA5 = 5 ∧
    claimTime stepN = 0 ∧
    ¬ (claimTime stepA5 ≤ claimTime stepN) := by
  refine ⟨by decide, by decide, by decide, by decide⟩

/-- C8 (amended): both grouping functions sort each group stably by the
timestamp comparator: ISO strings and millisecond-epoch numerics parse
uniformly to their epoch value and a missing timestamp defaults to
epoch 0, so whenever all of a group's timestamps parse the group is
ascending by parsed value with ties retaining input order; an
unparsable timestamp yields a `NaN` comparison that `SortCompare`
treats as equality, so such records retain their input position
relative to every record instead of sorting as epoch 0. -/
theorem c8_group_ordering (steps : List Step) (k : String) (g : List Step) :
    (lookupA k (getStepsByReconcileId steps) = some g →
      g = sortSteps (withKey reconKey k steps) ∧
      (∀ q : ℚ, g.filter (fun s => decide (timeNum s = some q)) =
        (withKey reconKey k steps).filter
          (fun s => decide (timeNum s = some q))) ∧
      ((∀ s ∈ g, (timeNum s).isSome = true) →
        g.Pairwise (fun a b => (timeNum a).getD 0 ≤ (timeNum b).getD 0))) ∧
    (lookupA k (getStepsByResource steps) = some g →
      g = sortSteps (withKey resourceKey k steps) ∧
      (∀ q : ℚ, g.filter (fun s => decide (timeNum s = some q)) =
        (withKey resourceKey k steps).filter
          (fun s => decide (timeNum s = some q))) ∧
      ((∀ s ∈ g, (timeNum s).isSome = true) →
        g.Pairwise (fun a b => (timeNum a).getD 0 ≤ (timeNum b).getD 0))) :=
  ⟨fun hg => groupBy_char reconKey steps k g hg,
   fun hg => groupBy_char resourceKey steps k g hg⟩

/-- C8 witness: on the out-of-order input `[stepA2, stepA1]` the group
`"A"` comes back sorted ascending and equal to the stable sort of its
matching records. -/
theorem c8_witness :
    lookupA "A" (getStepsByReconcileId [stepA2, stepA1]) =
      some [stepA1, stepA2] ∧
    [stepA1, stepA2] = sortSteps (withKey reconKey "A" [stepA2, stepA1]) ∧
    ([stepA1, stepA2].Pairwise
      (fun a b => (timeNum a).getD 0 ≤ (timeNum b).getD 0)) := by
  have h := (c8_group_ordering [stepA2, stepA1] "A" [stepA1, stepA2]).1
    (by decide)
  exact ⟨by decide, h.1, h.2.2 (by decide)⟩

/-- `registerCurve` touches only the curve registries. -/
theorem registerCurve_proj (k : String) (s : Flow) :
    (registerCurve k s).animating = s.animating ∧
    (registerCurve k s).animationSpeed = s.animationSpeed ∧
    (registerCurve k s).lastUpdate = s.lastUpdate := by
  rw [registerCurve]
  split
  · exact ⟨rfl, rfl, rfl⟩
  · split
    · exact ⟨rfl, rfl, rfl⟩
    · exact ⟨rfl, rfl, rfl⟩

/-- A key already registered in `curves` or `pipelines` is returned
as-is: no create branch, no state change. -/
theorem registerCurve_of_reg {k : String} {s : Flow}
    (h : k ∈ s.curves ∨ k ∈ s.pipelines) : registerCurve k s = s := by
  rw [registerCurve]
  rcases h with h | h
  · rw [if_pos h]
  · by_cases h1 : k ∈ s.curves
    · rw [if_pos h1]
    · rw [if_neg h1, if_pos h]

theorem addKey_mem_of_mem {k k' : String} {l : List String} (h : k' ∈ l) :
    k' ∈ addKey k l := by
  rw [addKey]
  split
  · exact h
  · exact List.mem_append_left _ h

/-- `getCurveForReconcileId` never removes a ball. -/
theorem registerCurve_balls_mem {k' : String} (k : String) (s : Flow)
    (h : k' ∈ s.balls) : k' ∈ (registerCurve k s).balls := by
  rw [registerCurve]
  split
  · exact h
  · split
    · exact h
    · exact addKey_mem_of_mem h

/-- `getCurveForReconcileId` touches no other key's stored position. -/
theorem registerCurve_bp_ne {k k' : String} (h : k' ≠ k) (s : Flow) :
    lookupA k' (registerCurve k s).ballPositions =
      lookupA k' s.ballPositions := by
  rw [registerCurve]
  split
  · rfl
  · split
    · rfl
    · exact lookupA_setA_ne h _ _

/-- The per-ball loop body leaves the animating flag, the speed factor
and the last-update sample unchanged. -/
theorem moveBody_proj (ad : ℚ) (s : Flow) (kt : String × ℚ) :
    (moveBody ad s kt).animating = s.animating ∧
    (moveBody ad s kt).animationSpeed = s.animationSpeed ∧
    (moveBody ad s kt).lastUpdate = s.lastUpdate := by
  rw [moveBody]
  obtain ⟨h1, h2, h3⟩ := registerCurve_proj kt.1 s
  split
  · exact ⟨rfl, rfl, rfl⟩
  · dsimp only
    split
    · exact ⟨rfl, rfl, rfl⟩
    · split
      · exact ⟨h1, h2, h3⟩
      · exact ⟨h1, h2, h3⟩

/-- The per-ball loop body never removes a ball. -/
theorem moveBody_balls_mem (ad : ℚ) (s : Flow) (kt : String × ℚ)
    {k : String} (h : k ∈ s.balls) : k ∈ (moveBody ad s kt).balls := by
  rw [moveBody]
  split
  · exact h
  · dsimp only
    split
    · exact h
    · split
      · exact registerCurve_balls_mem kt.1 s h
      · exact registerCurve_balls_mem kt.1 s h

/-- With its key registered in `curves` or `pipelines`, the loop body
takes no create branch: targets, balls and the registries are left
unchanged. -/
theorem moveBody_reg_proj (ad : ℚ) (s : Flow) (kt : String × ℚ)
    (hr : kt.1 ∈ s.curves ∨ kt.1 ∈ s.pipelines) :
    (moveBody ad s kt).targetPositions = s.targetPositions ∧
    (moveBody ad s kt).balls = s.balls ∧
    (moveBody ad s kt).curves = s.curves ∧
    (moveBody ad s kt).pipelines = s.pipelines := by
  rw [moveBody]
  have hre := registerCurve_of_reg hr
  split
  · exact ⟨rfl, rfl, rfl, rfl⟩
  · dsimp only
    split
    · exact ⟨rfl, rfl, rfl, rfl⟩
    · split
      · rw [hre]
        exact ⟨rfl, rfl, rfl, rfl⟩
      · rw [hre]
        exact ⟨rfl, rfl, rfl, rfl⟩

/-- The loop body for one key does not move any other key's ball. -/
theorem moveBody_lookup_ne (ad : ℚ) (s : Flow) (kt : String × ℚ) (k : String)
    (h : k ≠ kt.1) :
    lookupA k (moveBody ad s kt).ballPositions = lookupA k s.ballPositions := by
  rw [moveBody]
  split
  · exact lookupA_setA_ne h _ _
  · dsimp only
    split
    · rfl
    · split
      · show lookupA k (setA kt.1 _ (registerCurve kt.1 s).ballPositions) = _
        rw [lookupA_setA_ne h]
        exact registerCurve_bp_ne h s
      · show lookupA k (registerCurve kt.1 s).ballPositions = _
        exact registerCurve_bp_ne h s

/-- The loop body moves a registered key's ball exactly by `movePos`:
whether or not the curve had to be created (the create branch transiently
rewrites the stored position to 0), the final write stores the value
computed from the pre-read position. -/
theorem moveBody_lookup_self (ad : ℚ) (s : Flow) (k : String) (t c : ℚ)
    (hc : lookupA k s.ballPositions = some c) (hb : k ∈ s.balls) :
    lookupA k (moveBody ad s (k, t)).ballPositions =
      some (movePos ad c t) := by
  rw [moveBody, movePos]
  simp only [hc]
  dsimp only
  by_cases hd : jsAbs (t - c) < 1/1000
  · rw [if_pos hd, if_pos hd]
    exact hc
  · rw [if_neg hd, if_neg hd]
    have hb1 : k ∈ (registerCurve k s).balls := registerCurve_balls_mem k s hb
    rw [if_pos hb1]
    exact lookupA_setA_self _ _ _

/-- Keys outside the processed list are untouched by the loop. -/
theorem foldMove_lookup_notmem (ad : ℚ) (L : List (String × ℚ)) (s : Flow)
    (k : String) (h : k ∉ L.map Prod.fst) :
    lookupA k (L.foldl (moveBody ad) s).ballPositions =
      lookupA k s.ballPositions := by
  induction L generalizing s with
  | nil => rfl
  | cons kt rest ih =>
    rw [List.foldl_cons]
    simp only [List.map_cons, List.mem_cons, not_or] at h
    rw [ih _ (by simpa using h.2)]
    exact moveBody_lookup_ne ad s kt k h.1

/-- The loop never changes the animating flag, the speed factor or the
last-update sample. -/
theorem foldMove_proj (ad : ℚ) (L : List (String × ℚ)) (s : Flow) :
    (L.foldl (moveBody ad) s).animating = s.animating ∧
    (L.foldl (moveBody ad) s).animationSpeed = s.animationSpeed ∧
    (L.foldl (moveBody ad) s).lastUpdate = s.lastUpdate := by
  induction L generalizing s with
  | nil => exact ⟨rfl, rfl, rfl⟩
  | cons kt rest ih =>
    rw [List.foldl_cons]
    obtain ⟨a1, a2, a3⟩ := moveBody_proj ad s kt
    obtain ⟨b1, b2, b3⟩ := ih (moveBody ad s kt)
    exact ⟨b1.trans a1, b2.trans a2, b3.trans a3⟩

/-- The loop never removes a ball. -/
theorem foldMove_balls_mem (ad : ℚ) (L : List (String × ℚ)) (s : Flow)
    {k : String} (h : k ∈ s.balls) : k ∈ (L.foldl (moveBody ad) s).balls := by
  induction L generalizing s with
  | nil => exact h
  | cons kt rest ih =>
    rw [List.foldl_cons]
    exact ih _ (moveBody_balls_mem ad s kt h)

/-- With every processed key registered in `curves` or `pipelines`, the
loop takes no create branch: targets, balls and the registries are left
unchanged. -/
theorem foldMove_reg_proj (ad : ℚ) (L : List (String × ℚ)) (s : Flow)
    (hr : ∀ kt ∈ L, kt.1 ∈ s.curves ∨ kt.1 ∈ s.pipelines) :
    (L.foldl (moveBody ad) s).targetPositions = s.targetPositions ∧
    (L.foldl (moveBody ad) s).balls = s.balls ∧
    (L.foldl (moveBody ad) s).curves = s.curves ∧
    (L.foldl (moveBody ad) s).pipelines = s.pipelines := by
  induction L generalizing s with
  | nil => exact ⟨rfl, rfl, rfl, rfl⟩
  | cons kt rest ih =>
    rw [List.foldl_cons]
    obtain ⟨a1, a2, a3, a4⟩ :=
      moveBody_reg_proj ad s kt (hr kt (List.mem_cons_self kt rest))
    obtain ⟨b1, b2, b3, b4⟩ := ih (moveBody ad s kt) (by
      intro kt' hkt'
      rw [a3, a4]
      exact hr kt' (List.mem_cons_of_mem kt hkt'))
    exact ⟨b1.trans a1, b2.trans a2, b3.trans a3, b4.trans a4⟩

/-- Under distinct keys, the loop sends each registered entry's ball to
`movePos` of its pre-loop position. -/
theorem foldMove_lookup_mem (ad : ℚ) (L : List (String × ℚ)) (s : Flow)
    (k : String) (t c : ℚ) (hmem : (k, t) ∈ L)
    (hnd : (L.map Prod.fst).Nodup)
    (hc : lookupA k s.ballPositions = some c) (hb : k ∈ s.balls) :
    lookupA k (L.foldl (moveBody ad) s).ballPositions =
      some (movePos ad c t) := by
  induction L generalizing s with
  | nil => simp at hmem
  | cons kt rest ih =>
    rw [List.foldl_cons]
    simp only [List.map_cons, List.nodup_cons] at hnd
    rcases List.mem_cons.mp hmem with heq | hmem'
    · obtain rfl := heq.symm
      rw [foldMove_lookup_notmem ad rest _ k (by simpa using hnd.1)]
      exact moveBody_lookup_self ad s k t c hc hb
    · have hk_in : k ∈ rest.map Prod.fst :=
        List.mem_map.mpr ⟨(k, t), hmem', rfl⟩
      have hne : k ≠ kt.1 := by
        intro hkk
        rw [hkk] at hk_in
        exact hnd.1 hk_in
      exact ih (moveBody ad s kt) hmem' hnd.2
        (by rw [moveBody_lookup_ne ad s kt k hne]; exact hc)
        (moveBody_balls_mem ad s kt hb)

theorem jsAbs_nonneg (q : ℚ) : 0 ≤ jsAbs q := by
  rw [jsAbs_eq_abs]
  exact abs_nonneg q

/-- On the animating branch, `update` is the per-ball loop followed by
the all-at-target check that clears the animating flag. -/
theorem update_eq_animating (now speed : ℚ) (s : Flow)
    (hanim : s.animating = true) :
    update now speed s =
      (if (updateMoved now speed s).targetPositions.all
          (fun kt => decide (jsAbs (kt.2 - (lookupA kt.1
            (updateMoved now speed s).ballPositions).getD 0) ≤ 1/1000))
       then { updateMoved now speed s with animating := false }
       else updateMoved now speed s) := by
  rw [update, updateMoved]
  dsimp only
  rw [if_pos (show ({ s with lastUpdate := now } : Flow).animating = true
    from hanim)]

/-- When the engine is not animating, `update` only refreshes
`lastUpdate` (and ball colors, which are rendering-only). -/
theorem update_not_anim (now speed : ℚ) (s : Flow)
    (hanim : s.animating = false) :
    update now speed s = { s with lastUpdate := now } := by
  rw [update]
  dsimp only
  rw [if_neg (by
    rw [show ({ s with lastUpdate := now } : Flow).animating = s.animating
      from rfl, hanim]
    exact Bool.false_ne_true)]

/-- The ball positions after `update` are those after the per-ball
loop. -/
theorem update_ballPositions (now speed : ℚ) (s : Flow)
    (hanim : s.animating = true) :
    (update now speed s).ballPositions =
      (updateMoved now speed s).ballPositions := by
  rw [update_eq_animating now speed s hanim]
  split
  · rfl
  · rfl

/-- With all target keys registered, projections `updateMoved` leaves
unchanged. -/
theorem updateMoved_proj (now speed : ℚ) (s : Flow)
    (hcv : ∀ kt ∈ s.targetPositions, kt.1 ∈ s.curves ∨ kt.1 ∈ s.pipelines) :
    (updateMoved now speed s).targetPositions = s.targetPositions ∧
    (updateMoved now speed s).balls = s.balls ∧
    (updateMoved now speed s).curves = s.curves ∧
    (updateMoved now speed s).pipelines = s.pipelines ∧
    (updateMoved now speed s).animationSpeed = s.animationSpeed ∧
    (updateMoved now speed s).lastUpdate = now := by
  rw [updateMoved]
  obtain ⟨h1, h2, h3, h4⟩ := foldMove_reg_proj
    ((now - s.lastUpdate) / 1000 * speed * s.animationSpeed)
    s.targetPositions { s with lastUpdate := now } (by
      intro kt hkt
      exact hcv kt hkt)
  obtain ⟨g1, g2, g3⟩ := foldMove_proj
    ((now - s.lastUpdate) / 1000 * speed * s.animationSpeed)
    s.targetPositions { s with lastUpdate := now }
  exact ⟨h1, h2, h3, h4, g2, g3⟩

/-- With all target keys registered, projections `update` leaves
unchanged (plus the new `lastUpdate`). -/
theorem update_proj (now speed : ℚ) (s : Flow)
    (hcv : ∀ kt ∈ s.targetPositions, kt.1 ∈ s.curves ∨ kt.1 ∈ s.pipelines) :
    (update now speed s).targetPositions = s.targetPositions ∧
    (update now speed s).balls = s.balls ∧
    (update now speed s).curves = s.curves ∧
    (update now speed s).pipelines = s.pipelines ∧
    (update now speed s).animationSpeed = s.animationSpeed ∧
    (update now speed s).lastUpdate = now := by
  cases hanim : s.animating with
  | true =>
    obtain ⟨h1, h2, h3, h4, h5, h6⟩ := updateMoved_proj now speed s hcv
    rw [update_eq_animating now speed s hanim]
    split
    · exact ⟨h1, h2, h3, h4, h5, h6⟩
    · exact ⟨h1, h2, h3, h4, h5, h6⟩
  | false =>
    rw [update_not_anim now speed s hanim]
    exact ⟨rfl, rfl, rfl, rfl, rfl, rfl⟩

/-- With all target keys registered, the animating flag after an
animating `update` is false exactly when every target entry's post-move
ball is within epsilon. -/
theorem update_animating_iff (now speed : ℚ) (s : Flow)
    (hanim : s.animating = true)
    (hcv : ∀ kt ∈ s.targetPositions, kt.1 ∈ s.curves ∨ kt.1 ∈ s.pipelines) :
    ((update now speed s).animating = false ↔
      s.targetPositions.all
        (fun kt => decide (jsAbs (kt.2 - (lookupA kt.1
          (updateMoved now speed s).ballPositions).getD 0) ≤ 1/1000)) = true) := by
  have htp : (updateMoved now speed s).targetPositions = s.targetPositions :=
    (updateMoved_proj now speed s hcv).1
  rw [update_eq_animating now speed s hanim, htp]
  by_cases hall : s.targetPositions.all
      (fun kt => decide (jsAbs (kt.2 - (lookupA kt.1
        (updateMoved now speed s).ballPositions).getD 0) ≤ 1/1000)) = true
  · rw [if_pos hall]
    exact ⟨fun _ => hall, fun _ => rfl⟩
  · rw [if_neg hall]
    constructor
    · intro hfalse
      exfalso
      have : (updateMoved now speed s).animating = s.animating :=
        (foldMove_proj _ _ _).1
      rw [this, hanim] at hfalse
      cases hfalse
    · intro h
      exact absurd h hall

theorem movePos_small (ad c t : ℚ) (hd : jsAbs (t - c) < 1/1000) :
    movePos ad c t = c := by
  rw [movePos]
  rw [if_pos hd]

theorem stepTerm_nonneg (ad d : ℚ) (had : 0 ≤ ad) (hd0 : 0 ≤ d) :
    0 ≤ min (3/1000) (d * (1/10) + 1/2000) * ad * 60 := by
  have h1 : (0:ℚ) ≤ min (3/1000) (d * (1/10) + 1/2000) :=
    le_min (by norm_num) (by linarith)
  have h2 : (0:ℚ) ≤ min (3/1000) (d * (1/10) + 1/2000) * ad := mul_nonneg h1 had
  linarith

/-- Distance evolution of one ball move outside epsilon: the distance
shrinks by exactly `min(step, distance)`. -/
theorem movePos_newDist (ad c t : ℚ) (_had : 0 ≤ ad)
    (hd : ¬ jsAbs (t - c) < 1/1000) :
    |t - movePos ad c t| =
      |t - c| -
        min (min (3/1000) (|t - c| * (1/10) + 1/2000) * ad * 60) |t - c| := by
  rw [movePos]
  rw [if_neg hd]
  simp only [jsMin_eq_min, jsAbs_eq_abs]
  set d := |t - c| with hdd
  set m := min (min (3/1000) (d * (1/10) + 1/2000) * ad * 60) d with hm
  have hd0 : (0:ℚ) ≤ d := abs_nonneg _
  have hm_le : m ≤ d := min_le_right _ _
  rcases lt_trichotomy c t with hct | hct | hct
  · rw [if_pos hct, one_mul]
    have hd_eq : d = t - c := abs_of_pos (sub_pos.mpr hct)
    have h2 : t - (c + m) = d - m := by
      rw [hd_eq]
      ring
    rw [h2, abs_of_nonneg (sub_nonneg.mpr hm_le)]
  · exfalso
    apply hd
    rw [hct, sub_self]
    rw [show jsAbs 0 = 0 from by rw [jsAbs_eq_abs]; exact abs_zero]
    norm_num
  · rw [if_neg (lt_asymm hct)]
    have hd_eq : d = c - t := by
      rw [hdd, abs_of_neg (by linarith : t - c < 0)]
      ring
    have h2 : t - (c + -1 * m) = -(d - m) := by
      rw [hd_eq]
      ring
    rw [h2, abs_neg, abs_of_nonneg (sub_nonneg.mpr hm_le)]

/-- One ball move never increases the distance to the target. -/
theorem movePos_dist_le (ad c t : ℚ) (had : 0 ≤ ad) :
    |t - movePos ad c t| ≤ |t - c| := by
  by_cases hd : jsAbs (t - c) < 1/1000
  · rw [movePos_small ad c t hd]
  · rw [movePos_newDist ad c t had hd]
    have hm0 : 0 ≤ min (min (3/1000) (|t - c| * (1/10) + 1/2000) * ad * 60)
        |t - c| :=
      le_min (stepTerm_nonneg ad _ had (abs_nonneg _)) (abs_nonneg _)
    linarith

/-- One ball move either lands within epsilon or shrinks the distance
by at least `0.0005 * 60 * adjustedDelta`. -/
theorem movePos_shrink (ad c t : ℚ) (had : 0 < ad) :
    |t - movePos ad c t| ≤ 1/1000 ∨
    |t - movePos ad c t| ≤ |t - c| - 3/100 * ad := by
  by_cases hd : jsAbs (t - c) < 1/1000
  · left
    rw [movePos_small ad c t hd]
    rw [jsAbs_eq_abs] at hd
    linarith
  · rw [movePos_newDist ad c t (le_of_lt had) hd]
    set d := |t - c| with hdd
    set step := min (3/1000) (d * (1/10) + 1/2000) * ad * 60 with hstepd
    have hd0 : (0:ℚ) ≤ d := abs_nonneg _
    by_cases hsd : step ≤ d
    · right
      rw [min_eq_left hsd]
      have h1 : (1/2000 : ℚ) ≤ min (3/1000) (d * (1/10) + 1/2000) :=
        le_min (by norm_num) (by linarith)
      have h2 : (1/2000 : ℚ) * ad ≤ min (3/1000) (d * (1/10) + 1/2000) * ad :=
        mul_le_mul_of_nonneg_right h1 (le_of_lt had)
      have h3 : (3/100 : ℚ) * ad ≤ step := by
        rw [hstepd]
        nlinarith
      linarith
    · left
      rw [min_eq_right (le_of_not_le hsd)]
      norm_num

/-- One ball move stays between the old position and the target. -/
theorem movePos_between (ad c t : ℚ) (had : 0 ≤ ad) :
    min c t ≤ movePos ad c t ∧ movePos ad c t ≤ max c t := by
  by_cases hd : jsAbs (t - c) < 1/1000
  · rw [movePos_small ad c t hd]
    exact ⟨min_le_left c t, le_max_left c t⟩
  · rw [movePos]
    rw [if_neg hd]
    simp only [jsMin_eq_min, jsAbs_eq_abs]
    set d := |t - c| with hdd
    set m := min (min (3/1000) (d * (1/10) + 1/2000) * ad * 60) d with hm
    have hd0 : (0:ℚ) ≤ d := abs_nonneg _
    have hm0 : 0 ≤ m :=
      le_min (stepTerm_nonneg ad d had hd0) hd0
    have hm_le : m ≤ d := min_le_right _ _
    rcases lt_trichotomy c t with hct | hct | hct
    · rw [if_pos hct, one_mul]
      have hd_eq : d = t - c := abs_of_pos (sub_pos.mpr hct)
      constructor
      · have : min c t ≤ c := min_le_left c t
        linarith
      · have : c + m ≤ t := by
          rw [hd_eq] at hm_le
          linarith
        have h2 : t ≤ max c t := le_max_right c t
        linarith
    · exfalso
      apply hd
      rw [hct, sub_self]
      rw [show jsAbs 0 = 0 from by rw [jsAbs_eq_abs]; exact abs_zero]
      norm_num
    · rw [if_neg (lt_asymm hct)]
      have hd_eq : d = c - t := by
        rw [hdd, abs_of_neg (by linarith : t - c < 0)]
        ring
      constructor
      · have h2 : t ≤ c + -1 * m := by
          rw [hd_eq] at hm_le
          linarith
        have h3 : min c t ≤ t := min_le_right c t
        linarith
      · have h2 : c + -1 * m ≤ c := by linarith
        have h3 : c ≤ max c t := le_max_left c t
        linarith

/-- C1: on each `update` tick with the 60-fps-normalizing formula, a
registered key (ball present, position tracked) whose distance to
target exceeds epsilon moves toward the target by
`min(min(0.003, d*0.1 + 0.0005) * elapsedSeconds * speedMultiplier * 60, d)`
— never past the target — while keys within epsilon are left
unchanged. -/
theorem c1_tick_step (s : Flow) (now speed : ℚ) (k : String) (t c : ℚ)
    (hanim : s.animating = true)
    (hAS : s.animationSpeed = 1)
    (hnd : (s.targetPositions.map Prod.fst).Nodup)
    (hmem : (k, t) ∈ s.targetPositions)
    (hc : lookupA k s.ballPositions = some c)
    (hb : k ∈ s.balls)
    (hel : 0 ≤ (now - s.lastUpdate) / 1000 * speed) :
    (1/1000 < |t - c| →
      lookupA k (update now speed s).ballPositions =
        some (c + (if t > c then 1 else -1) *
          min (min (3/1000) (|t - c| * (1/10) + 1/2000) *
            ((now - s.lastUpdate) / 1000) * speed * 60) |t - c|) ∧
      min c t ≤ c + (if t > c then 1 else -1) *
          min (min (3/1000) (|t - c| * (1/10) + 1/2000) *
            ((now - s.lastUpdate) / 1000) * speed * 60) |t - c| ∧
      c + (if t > c then 1 else -1) *
          min (min (3/1000) (|t - c| * (1/10) + 1/2000) *
            ((now - s.lastUpdate) / 1000) * speed * 60) |t - c| ≤ max c t) ∧
    (|t - c| < 1/1000 →
      lookupA k (update now speed s).ballPositions = some c) := by
  have hlk : lookupA k (update now speed s).ballPositions =
      some (movePos ((now - s.lastUpdate) / 1000 * speed * s.animationSpeed)
        c t) := by
    rw [update_ballPositions now speed s hanim, updateMoved]
    exact foldMove_lookup_mem _ _ _ k t c hmem hnd hc hb
  have had : 0 ≤ (now - s.lastUpdate) / 1000 * speed * s.animationSpeed := by
    rw [hAS, mul_one]
    exact hel
  constructor
  · intro hgt
    have hd : ¬ jsAbs (t - c) < 1/1000 := by
      rw [jsAbs_eq_abs]
      exact lt_asymm hgt
    have harg : min (3/1000) (|t - c| * (1/10) + 1/2000) *
        ((now - s.lastUpdate) / 1000 * speed * s.animationSpeed) * 60 =
        min (3/1000) (|t - c| * (1/10) + 1/2000) *
          ((now - s.lastUpdate) / 1000) * speed * 60 := by
      rw [hAS]
      ring
    have hmp : movePos ((now - s.lastUpdate) / 1000 * speed * s.animationSpeed)
        c t =
        c + (if t > c then 1 else -1) *
          min (min (3/1000) (|t - c| * (1/10) + 1/2000) *
            ((now - s.lastUpdate) / 1000) * speed * 60) |t - c| := by
      rw [movePos]
      rw [if_neg hd]
      simp only [jsMin_eq_min, jsAbs_eq_abs]
      rw [harg]
    obtain ⟨hb1, hb2⟩ := movePos_between _ c t had
    rw [hmp] at hb1 hb2 hlk
    exact ⟨hlk, hb1, hb2⟩
  · intro hlt
    have hd : jsAbs (t - c) < 1/1000 := by
      rw [jsAbs_eq_abs]
      exact hlt
    rw [movePos_small _ c t hd] at hlk
    exact hlk

/-- C1 witness: one tick on the concrete animating state moves the
ball of `"A"` from 0 toward target 1 by exactly the formula's step. -/
theorem c1_witness :
    (1/1000 : ℚ) < |(1 : ℚ) - 0| ∧
    lookupA "A" (update 1000 1 c1State).ballPositions =
      some (0 + (if (1 : ℚ) > 0 then 1 else -1) *
        min (min (3/1000) (|(1 : ℚ) - 0| * (1/10) + 1/2000) *
          ((1000 - 0) / 1000) * 1 * 60) |(1 : ℚ) - 0|) := by
  have h := (c1_tick_step c1State 1000 1 "A" 1 0 rfl rfl (by decide) (by decide)
    (by decide) (by decide)
    (by show (0:ℚ) ≤ (1000 - 0) / 1000 * 1; norm_num)).1 (by norm_num)
  exact ⟨by norm_num, h.1⟩

/-- `getCurveForReconcileId` preserves extended playback agreement: it
branches only on `curves`/`pipelines` membership and its create branch
rewrites agreeing fields identically. -/
theorem registerCurve_playbackEqC (k : String) {s1 s2 : Flow}
    (h : playbackEqC s1 s2) :
    playbackEqC (registerCurve k s1) (registerCurve k s2) := by
  obtain ⟨⟨h1, h2, h3, h4, h5, h6⟩, hc, hp⟩ := h
  rw [registerCurve, registerCurve]
  by_cases hk1 : k ∈ s1.curves
  · have hk1' : k ∈ s2.curves := by rw [← hc]; exact hk1
    rw [if_pos hk1, if_pos hk1']
    exact ⟨⟨h1, h2, h3, h4, h5, h6⟩, hc, hp⟩
  · have hk1' : k ∉ s2.curves := by rw [← hc]; exact hk1
    rw [if_neg hk1, if_neg hk1']
    by_cases hk2 : k ∈ s1.pipelines
    · have hk2' : k ∈ s2.pipelines := by rw [← hp]; exact hk2
      rw [if_pos hk2, if_pos hk2']
      exact ⟨⟨h1, h2, h3, h4, h5, h6⟩, hc, hp⟩
    · have hk2' : k ∉ s2.pipelines := by rw [← hp]; exact hk2
      rw [if_neg hk2, if_neg hk2']
      exact ⟨⟨h1, h2, h3, by rw [h4], by rw [h5], by rw [h6]⟩,
        by show addKey k s1.curves = addKey k s2.curves; rw [hc],
        by show addKey k s1.pipelines = addKey k s2.pipelines; rw [hp]⟩

/-- The per-ball loop body preserves extended playback agreement: its
effect on the playback fields and registries depends only on them. -/
theorem moveBody_playbackEqC (ad : ℚ) (kt : String × ℚ) {s1 s2 : Flow}
    (h : playbackEqC s1 s2) :
    playbackEqC (moveBody ad s1 kt) (moveBody ad s2 kt) := by
  obtain ⟨⟨h1, h2, h3, h4, h5, h6⟩, hc, hp⟩ := h
  rw [moveBody, moveBody, h4]
  cases hlk : lookupA kt.1 s2.ballPositions with
  | none =>
    simp only [hlk]
    exact ⟨⟨h1, h2, h3, rfl, h5, h6⟩, hc, hp⟩
  | some c =>
    simp only [hlk]
    by_cases hd : jsAbs (kt.2 - c) < 1/1000
    · rw [if_pos hd, if_pos hd]
      exact ⟨⟨h1, h2, h3, h4, h5, h6⟩, hc, hp⟩
    · rw [if_neg hd, if_neg hd]
      obtain ⟨⟨r1, r2, r3, r4, r5, r6⟩, rc, rp⟩ :=
        registerCurve_playbackEqC kt.1 ⟨⟨h1, h2, h3, h4, h5, h6⟩, hc, hp⟩
      by_cases hmem : kt.1 ∈ (registerCurve kt.1 s1).balls
      · have hmem2 : kt.1 ∈ (registerCurve kt.1 s2).balls := by
          rw [← r6]
          exact hmem
        rw [if_pos hmem, if_pos hmem2]
        exact ⟨⟨r1, r2, r3,
          by show setA kt.1 _ (registerCurve kt.1 s1).ballPositions =
            setA kt.1 _ (registerCurve kt.1 s2).ballPositions; rw [r4],
          r5, r6⟩, rc, rp⟩
      · have hmem2 : kt.1 ∉ (registerCurve kt.1 s2).balls := by
          rw [← r6]
          exact hmem
        rw [if_neg hmem, if_neg hmem2]
        exact ⟨⟨r1, r2, r3, r4, r5, r6⟩, rc, rp⟩

/-- The whole per-ball loop preserves extended playback agreement. -/
theorem foldMove_playbackEqC (ad : ℚ) (L : List (String × ℚ)) {s1 s2 : Flow}
    (h : playbackEqC s1 s2) :
    playbackEqC (L.foldl (moveBody ad) s1) (L.foldl (moveBody ad) s2) := by
  induction L generalizing s1 s2 with
  | nil => exact h
  | cons kt rest ih =>
    rw [List.foldl_cons, List.foldl_cons]
    exact ih (moveBody_playbackEqC ad kt h)

/-- A tick preserves extended playback agreement: its outcome on the
playback fields and registries depends only on them and the supplied
`(Date.now(), speed)` inputs. -/
theorem update_playbackEqC (now speed : ℚ) {s1 s2 : Flow}
    (h : playbackEqC s1 s2) :
    playbackEqC (update now speed s1) (update now speed s2) := by
  obtain ⟨⟨h1, h2, h3, h4, h5, h6⟩, hc, hp⟩ := h
  cases hanim : s1.animating with
  | false =>
    have hanim2 : s2.animating = false := by
      rw [← h1, hanim]
    rw [update_not_anim _ _ _ hanim, update_not_anim _ _ _ hanim2]
    exact ⟨⟨h1, h2, rfl, h4, h5, h6⟩, hc, hp⟩
  | true =>
    have hanim2 : s2.animating = true := by
      rw [← h1, hanim]
    rw [update_eq_animating _ _ _ hanim, update_eq_animating _ _ _ hanim2]
    have hum : playbackEqC (updateMoved now speed s1)
        (updateMoved now speed s2) := by
      rw [updateMoved, updateMoved, h3, h2, h5]
      exact foldMove_playbackEqC _ _ ⟨⟨h1, rfl, rfl, h4, rfl, h6⟩, hc, hp⟩
    obtain ⟨⟨u1, u2, u3, u4, u5, u6⟩, uc, up⟩ := hum
    have hcond : ((updateMoved now speed s1).targetPositions.all
        (fun kt => decide (jsAbs (kt.2 - (lookupA kt.1
          (updateMoved now speed s1).ballPositions).getD 0) ≤ 1/1000))) =
        ((updateMoved now speed s2).targetPositions.all
        (fun kt => decide (jsAbs (kt.2 - (lookupA kt.1
          (updateMoved now speed s2).ballPositions).getD 0) ≤ 1/1000))) := by
      rw [u5, u4]
    rw [hcond]
    split
    · exact ⟨⟨rfl, u2, u3, u4, u5, u6⟩, uc, up⟩
    · exact ⟨⟨u1, u2, u3, u4, u5, u6⟩, uc, up⟩

/-- Position trajectories agree whenever the playback fields and the
curve/pipeline registries agree. -/
theorem posTrace_playbackEqC (inputs : List (ℚ × ℚ)) {s1 s2 : Flow}
    (h : playbackEqC s1 s2) :
    posTrace inputs s1 = posTrace inputs s2 := by
  induction inputs generalizing s1 s2 with
  | nil => rfl
  | cons p rest ih =>
    rw [posTrace, posTrace]
    have h' := update_playbackEqC p.1 p.2 h
    rw [ih h', h'.1.2.2.2.1]

/-- C3 counterexample to the claimed determinism base: two states that
agree on all six playback fields — initial positions, targets, ball
set, animating flag, speed factor and last-update sample — but differ
in the registered curve set produce different trajectories over the
same tick inputs.  The run whose key has no registered curve triggers
the lazy `createFlowPath` inside the first tick, which resets that
key's target to 0, so from the second tick on its ball walks back to 0
while the other run's ball rests at the original target 1. -/
theorem c3_counterexample :
    playbackEq c3CexA c3CexB ∧
    posTrace [(100000, 1), (200000, 1)] c3CexA ≠
      posTrace [(100000, 1), (200000, 1)] c3CexB := by
  have hA1 : update 100000 1 c3CexA = c3CexA1 := by
    norm_num [update, moveBody, registerCurve, addKey, setA, lookupA,
      jsAbs, jsMin, c3CexA, c3CexA1, List.all]
  have hB1 : update 100000 1 c3CexB = c3CexB1 := by
    norm_num [update, moveBody, registerCurve, addKey, setA, lookupA,
      jsAbs, jsMin, c3CexB, c3CexB1, List.all]
  have hB2 : update 200000 1 c3CexB1 = c3CexB2 := by
    norm_num [update, moveBody, registerCurve, addKey, setA, lookupA,
      jsAbs, jsMin, c3CexB1, c3CexB2, List.all]
  have hA2 : update 200000 1 c3CexA1 = { c3CexA1 with lastUpdate := 200000 } :=
    update_not_anim _ _ _ rfl
  constructor
  · exact ⟨rfl, rfl, rfl, rfl, rfl, rfl⟩
  · have htrA : posTrace [(100000, 1), (200000, 1)] c3CexA =
        [[("A", 1)], [("A", 1)]] := by
      simp only [posTrace]
      rw [hA1, hA2]
      rfl
    have htrB : posTrace [(100000, 1), (200000, 1)] c3CexB =
        [[("A", 1)], [("A", 0)]] := by
      simp only [posTrace]
      rw [hB1, hB2]
      rfl
    rw [htrA, htrB]
    intro hcontra
    norm_num at hcontra

/-- C3 (amended): two runs over the same sequence of
`(Date.now() sample, speed)` tick inputs from states agreeing on the
playback fields (positions, targets, balls, flag, speed factor,
last-update sample) AND on the registered curve and pipeline key sets
produce identical position trajectories — regardless of every other
engine field (steps, mode, active key, cached step, indices).  The
registries belong to the determinism base because a key with a target
but no registered flow path is lazily re-created mid-tick, resetting
its target to 0.  The elapsed time is a pure function of the supplied
samples; nothing else temporal enters the step-size computation. -/
theorem c3_deterministic_trace (inputs : List (ℚ × ℚ)) (s1 s2 : Flow)
    (h1 : s1.animating = s2.animating)
    (h2 : s1.animationSpeed = s2.animationSpeed)
    (h3 : s1.lastUpdate = s2.lastUpdate)
    (h4 : s1.ballPositions = s2.ballPositions)
    (h5 : s1.targetPositions = s2.targetPositions)
    (h6 : s1.balls = s2.balls)
    (h7 : s1.curves = s2.curves)
    (h8 : s1.pipelines = s2.pipelines) :
    posTrace inputs s1 = posTrace inputs s2 :=
  posTrace_playbackEqC inputs ⟨⟨h1, h2, h3, h4, h5, h6⟩, h7, h8⟩

/-- C3 witness: two concrete states differing in their step lists,
navigation mode, active key and cached step but agreeing on the
playback fields and registries yield bit-identical two-tick
trajectories. -/
theorem c3_witness :
    c3StateA.steps ≠ c3StateB.steps ∧
    posTrace [(500, 1), (1200, 2)] c3StateA =
      posTrace [(500, 1), (1200, 2)] c3StateB :=
  ⟨by decide, c3_deterministic_trace [(500, 1), (1200, 2)] c3StateA c3StateB
    rfl rfl rfl rfl rfl rfl rfl rfl⟩

/-- One fixed-elapsed tick on an animating state with all target keys
registered (ball present, curve or pipeline present): every entry's
ball moves by `movePos (dt * speed)`, the registration state is
unchanged, and the animating flag clears exactly when every moved ball
is within epsilon of its target. -/
theorem tickE_char (dt speed : ℚ) (s : Flow)
    (hAS : s.animationSpeed = 1)
    (hanim : s.animating = true)
    (hnd : (s.targetPositions.map Prod.fst).Nodup)
    (hreg : ∀ kt ∈ s.targetPositions, kt.1 ∈ s.balls)
    (hcv : ∀ kt ∈ s.targetPositions, kt.1 ∈ s.curves ∨ kt.1 ∈ s.pipelines) :
    (∀ k t c, (k, t) ∈ s.targetPositions →
      lookupA k s.ballPositions = some c →
      lookupA k (tickE dt speed s).ballPositions =
        some (movePos (dt * speed) c t)) ∧
    (tickE dt speed s).targetPositions = s.targetPositions ∧
    (tickE dt speed s).balls = s.balls ∧
    (tickE dt speed s).curves = s.curves ∧
    (tickE dt speed s).pipelines = s.pipelines ∧
    (tickE dt speed s).animationSpeed = 1 ∧
    (tickE dt speed s).lastUpdate = s.lastUpdate + 1000 * dt ∧
    ((∀ kt ∈ s.targetPositions, ∃ c,
        lookupA kt.1 s.ballPositions = some c) →
      ((tickE dt speed s).animating = false ↔
        ∀ k t c, (k, t) ∈ s.targetPositions →
          lookupA k s.ballPositions = some c →
          jsAbs (t - movePos (dt * speed) c t) ≤ 1/1000)) := by
  have had : (s.lastUpdate + 1000 * dt - s.lastUpdate) / 1000 * speed *
      s.animationSpeed = dt * speed := by
    rw [hAS]
    ring
  have hlkA : ∀ k t c, (k, t) ∈ s.targetPositions →
      lookupA k s.ballPositions = some c →
      lookupA k (updateMoved (s.lastUpdate + 1000 * dt) speed
        s).ballPositions = some (movePos (dt * speed) c t) := by
    intro k t c hmem hc
    rw [updateMoved, had]
    exact foldMove_lookup_mem _ _ _ k t c hmem hnd hc (hreg (k, t) hmem)
  refine ⟨?_, ?_, ?_, ?_, ?_, ?_, ?_, ?_⟩
  · intro k t c hmem hc
    rw [tickE, update_ballPositions _ _ _ hanim]
    exact hlkA k t c hmem hc
  · rw [tickE]
    exact (update_proj _ _ _ hcv).1
  · rw [tickE]
    exact (update_proj _ _ _ hcv).2.1
  · rw [tickE]
    exact (update_proj _ _ _ hcv).2.2.1
  · rw [tickE]
    exact (update_proj _ _ _ hcv).2.2.2.1
  · rw [tickE]
    exact ((update_proj _ _ _ hcv).2.2.2.2.1).trans hAS
  · rw [tickE]
    exact (update_proj _ _ _ hcv).2.2.2.2.2
  · intro hexists
    rw [tickE, update_animating_iff _ _ _ hanim hcv, List.all_eq_true]
    constructor
    · intro hall k t c hmem hc
      have h2 := hall (k, t) hmem
      rw [hlkA k t c hmem hc] at h2
      simpa using h2
    · intro hP kt hmem
      obtain ⟨c, hc⟩ := hexists kt hmem
      obtain ⟨k, t⟩ := kt
      rw [hlkA k t c hmem hc]
      simpa using hP k t c hmem hc

/-- A tick on a non-animating state only refreshes `lastUpdate`. -/
theorem tickE_not_anim (dt speed : ℚ) (s : Flow) (h : s.animating = false) :
    tickE dt speed s =
      { s with lastUpdate := s.lastUpdate + 1000 * dt } := by
  rw [tickE, update_not_anim _ _ _ h]

/-- Trajectory invariants of `n` fixed-elapsed ticks from an animating
state with all target keys registered (ball object present and curve or
pipeline present) and all positions and targets in `[0,1]`:
registration is preserved, every ball stays between its start and its
target, its distance either is within epsilon or has shrunk linearly in
`n`, and a cleared animating flag certifies that every ball is within
epsilon. -/
theorem tickN_props (dt speed : ℚ) (hdt : 0 < dt) (hsp : 0 < speed)
    (s : Flow)
    (hAS : s.animationSpeed = 1)
    (hanim : s.animating = true)
    (hnd : (s.targetPositions.map Prod.fst).Nodup)
    (hreg : ∀ kt ∈ s.targetPositions, kt.1 ∈ s.balls)
    (hcv : ∀ kt ∈ s.targetPositions, kt.1 ∈ s.curves ∨ kt.1 ∈ s.pipelines)
    (hpos : ∀ kt ∈ s.targetPositions, ∃ c,
      lookupA kt.1 s.ballPositions = some c ∧ 0 ≤ c ∧ c ≤ 1) :
    ∀ n : ℕ,
      (tickN dt speed n s).targetPositions = s.targetPositions ∧
      (tickN dt speed n s).balls = s.balls ∧
      (tickN dt speed n s).curves = s.curves ∧
      (tickN dt speed n s).pipelines = s.pipelines ∧
      (tickN dt speed n s).animationSpeed = 1 ∧
      (∀ k t c, (k, t) ∈ s.targetPositions →
        lookupA k s.ballPositions = some c →
        ∃ p, lookupA k (tickN dt speed n s).ballPositions = some p ∧
          min c t ≤ p ∧ p ≤ max c t ∧
          (|t - p| ≤ 1/1000 ∨
            |t - p| ≤ |t - c| - (n : ℚ) * (3/100 * (dt * speed)))) ∧
      ((tickN dt speed n s).animating = false →
        ∀ k t c, (k, t) ∈ s.targetPositions →
          lookupA k s.ballPositions = some c →
          ∃ p, lookupA k (tickN dt speed n s).ballPositions = some p ∧
            |t - p| ≤ 1/1000) := by
  have had : 0 < dt * speed := mul_pos hdt hsp
  intro n
  induction n with
  | zero =>
    refine ⟨rfl, rfl, rfl, rfl, hAS, ?_, ?_⟩
    · intro k t c hmem hc
      exact ⟨c, hc, min_le_left c t, le_max_left c t, Or.inr (by simp)⟩
    · intro hflag
      rw [show tickN dt speed 0 s = s from rfl, hanim] at hflag
      cases hflag
  | succ n ih =>
    obtain ⟨htp, hballs, hcur, hpip, hASn, hmain, hflag⟩ := ih
    cases hanimn : (tickN dt speed n s).animating with
    | false =>
      have heq : tickE dt speed (tickN dt speed n s) =
          { tickN dt speed n s with
            lastUpdate := (tickN dt speed n s).lastUpdate + 1000 * dt } :=
        tickE_not_anim _ _ _ hanimn
      refine ⟨?_, ?_, ?_, ?_, ?_, ?_, ?_⟩
      · show (tickE dt speed (tickN dt speed n s)).targetPositions = _
        rw [heq]
        exact htp
      · show (tickE dt speed (tickN dt speed n s)).balls = _
        rw [heq]
        exact hballs
      · show (tickE dt speed (tickN dt speed n s)).curves = _
        rw [heq]
        exact hcur
      · show (tickE dt speed (tickN dt speed n s)).pipelines = _
        rw [heq]
        exact hpip
      · show (tickE dt speed (tickN dt speed n s)).animationSpeed = 1
        rw [heq]
        exact hASn
      · intro k t c hmem hc
        obtain ⟨p, hp, h1, h2, _⟩ := hmain k t c hmem hc
        obtain ⟨p', hp', hw⟩ := hflag hanimn k t c hmem hc
        have hpe : p = p' := Option.some.inj (hp.symm.trans hp')
        refine ⟨p, ?_, h1, h2, Or.inl (by rw [hpe]; exact hw)⟩
        show lookupA k (tickE dt speed (tickN dt speed n s)).ballPositions =
          some p
        rw [heq]
        exact hp
      · intro _ k t c hmem hc
        obtain ⟨p', hp', hw⟩ := hflag hanimn k t c hmem hc
        refine ⟨p', ?_, hw⟩
        show lookupA k (tickE dt speed (tickN dt speed n s)).ballPositions =
          some p'
        rw [heq]
        exact hp'
    | true =>
      have hndn : ((tickN dt speed n s).targetPositions.map Prod.fst).Nodup :=
        by rw [htp]; exact hnd
      have hregn : ∀ kt ∈ (tickN dt speed n s).targetPositions,
          kt.1 ∈ (tickN dt speed n s).balls := by
        rw [htp, hballs]
        exact hreg
      have hcvn : ∀ kt ∈ (tickN dt speed n s).targetPositions,
          kt.1 ∈ (tickN dt speed n s).curves ∨
          kt.1 ∈ (tickN dt speed n s).pipelines := by
        rw [htp, hcur, hpip]
        exact hcv
      obtain ⟨hmv, htp', hballs', hcur', hpip', hAS', _, hiff⟩ :=
        tickE_char dt speed (tickN dt speed n s) hASn hanimn hndn hregn hcvn
      have hposn : ∀ kt ∈ (tickN dt speed n s).targetPositions, ∃ c2,
          lookupA kt.1 (tickN dt speed n s).ballPositions = some c2 := by
        rw [htp]
        intro kt hmem
        obtain ⟨k, t⟩ := kt
        obtain ⟨c, hc, _, _⟩ := hpos (k, t) hmem
        obtain ⟨p, hp, _, _, _⟩ := hmain k t c hmem hc
        exact ⟨p, hp⟩
      refine ⟨htp'.trans htp, hballs'.trans hballs, hcur'.trans hcur,
        hpip'.trans hpip, hAS', ?_, ?_⟩
      · intro k t c hmem hc
        obtain ⟨p, hp, hlo, hhi, hdisj⟩ := hmain k t c hmem hc
        have hmemn : (k, t) ∈ (tickN dt speed n s).targetPositions := by
          rw [htp]
          exact hmem
        have hlk := hmv k t p hmemn hp
        obtain ⟨hb1, hb2⟩ := movePos_between (dt * speed) p t (le_of_lt had)
        refine ⟨movePos (dt * speed) p t, hlk, ?_, ?_, ?_⟩
        · have h3 : min c t ≤ min p t := le_min hlo (min_le_right c t)
          linarith
        · have h3 : max p t ≤ max c t := max_le hhi (le_max_right c t)
          linarith
        · rcases hdisj with hdisj | hdisj
          · left
            calc |t - movePos (dt * speed) p t| ≤ |t - p| :=
                movePos_dist_le _ p t (le_of_lt had)
            _ ≤ 1/1000 := hdisj
          · rcases movePos_shrink (dt * speed) p t had with hs | hs
            · left
              exact hs
            · right
              push_cast
              linarith
      · intro hflag1 k t c hmem hc
        obtain ⟨p, hp, _, _, _⟩ := hmain k t c hmem hc
        have hmemn : (k, t) ∈ (tickN dt speed n s).targetPositions := by
          rw [htp]
          exact hmem
        have hlk := hmv k t p hmemn hp
        have hw := ((hiff hposn).mp hflag1) k t p hmemn hp
        rw [jsAbs_eq_abs] at hw
        exact ⟨movePos (dt * speed) p t, hlk, hw⟩

/-- C2: from an animating state whose target keys are all registered —
ball object present and flow path (curve or pipeline) present, as
`createFlowPath` guarantees for every key it creates, so the lazy
create branch that would reset a target to 0 never fires — with
positions and fixed targets in `[0,1]`, repeated fixed-elapsed ticks
with positive elapsed seconds and speed multiplier bring every key
within the 0.001 epsilon of its target in finitely many ticks with the
animating flag cleared, and no ball ever moves outside the interval
between its starting position and its target (no overshoot). -/
theorem c2_convergence (s : Flow) (dt speed : ℚ)
    (hdt : 0 < dt) (hsp : 0 < speed)
    (hAS : s.animationSpeed = 1)
    (hanim : s.animating = true)
    (hnd : (s.targetPositions.map Prod.fst).Nodup)
    (hreg : ∀ kt ∈ s.targetPositions, kt.1 ∈ s.balls)
    (hcv : ∀ kt ∈ s.targetPositions, kt.1 ∈ s.curves ∨ kt.1 ∈ s.pipelines)
    (hpos : ∀ kt ∈ s.targetPositions, ∃ c,
      lookupA kt.1 s.ballPositions = some c ∧ 0 ≤ c ∧ c ≤ 1)
    (htr : ∀ kt ∈ s.targetPositions, 0 ≤ kt.2 ∧ kt.2 ≤ 1) :
    (∃ n, (tickN dt speed n s).animating = false ∧
      ∀ kt ∈ s.targetPositions, ∃ p,
        lookupA kt.1 (tickN dt speed n s).ballPositions = some p ∧
        |kt.2 - p| ≤ 1/1000) ∧
    (∀ n, ∀ kt ∈ s.targetPositions, ∀ c,
      lookupA kt.1 s.ballPositions = some c →
      ∃ p, lookupA kt.1 (tickN dt speed n s).ballPositions = some p ∧
        min c kt.2 ≤ p ∧ p ≤ max c kt.2) := by
  have had : 0 < dt * speed := mul_pos hdt hsp
  have hc0 : 0 < 3/100 * (dt * speed) :=
    mul_pos (by norm_num) had
  constructor
  · obtain ⟨N, hN⟩ := exists_nat_gt (1 / (3/100 * (dt * speed)))
    have hNc : 1 < (N : ℚ) * (3/100 * (dt * speed)) := by
      rw [div_lt_iff₀ hc0] at hN
      exact hN
    have hwithinN : ∀ k t c, (k, t) ∈ s.targetPositions →
        lookupA k s.ballPositions = some c →
        ∃ p, lookupA k (tickN dt speed N s).ballPositions = some p ∧
          |t - p| ≤ 1/1000 := by
      intro k t c hmem hc
      obtain ⟨p, hp, hlo, hhi, hdisj⟩ :=
        (tickN_props dt speed hdt hsp s hAS hanim hnd hreg hcv hpos
          N).2.2.2.2.2.1 k t c hmem hc
      refine ⟨p, hp, ?_⟩
      rcases hdisj with h | h
      · exact h
      · exfalso
        obtain ⟨c', hc', hcl, hcu⟩ := hpos (k, t) hmem
        have hce : c' = c := Option.some.inj (hc'.symm.trans hc)
        rw [hce] at hcl hcu
        obtain ⟨ht0, ht1⟩ := htr (k, t) hmem
        have hd0 : |t - c| ≤ 1 := abs_le.mpr ⟨by linarith, by linarith⟩
        have habs : 0 ≤ |t - p| := abs_nonneg _
        linarith
    cases hflagN : (tickN dt speed N s).animating with
    | false =>
      refine ⟨N, hflagN, ?_⟩
      intro kt hmem
      obtain ⟨k, t⟩ := kt
      obtain ⟨c, hc, _, _⟩ := hpos (k, t) hmem
      exact hwithinN k t c hmem hc
    | true =>
      obtain ⟨htpN, hballsN, hcurN, hpipN, hASN, hmainN, _⟩ :=
        tickN_props dt speed hdt hsp s hAS hanim hnd hreg hcv hpos N
      have hndN : ((tickN dt speed N s).targetPositions.map Prod.fst).Nodup :=
        by rw [htpN]; exact hnd
      have hregN : ∀ kt ∈ (tickN dt speed N s).targetPositions,
          kt.1 ∈ (tickN dt speed N s).balls := by
        rw [htpN, hballsN]
        exact hreg
      have hcvN : ∀ kt ∈ (tickN dt speed N s).targetPositions,
          kt.1 ∈ (tickN dt speed N s).curves ∨
          kt.1 ∈ (tickN dt speed N s).pipelines := by
        rw [htpN, hcurN, hpipN]
        exact hcv
      obtain ⟨hmv, _, _, _, _, _, _, hiff⟩ :=
        tickE_char dt speed (tickN dt speed N s) hASN hflagN hndN hregN hcvN
      have hposN : ∀ kt ∈ (tickN dt speed N s).targetPositions, ∃ c2,
          lookupA kt.1 (tickN dt speed N s).ballPositions = some c2 := by
        rw [htpN]
        intro kt hmem
        obtain ⟨k, t⟩ := kt
        obtain ⟨c, hc, _, _⟩ := hpos (k, t) hmem
        obtain ⟨p, hp, _, _, _⟩ := hmainN k t c hmem hc
        exact ⟨p, hp⟩
      have hflag1 : (tickN dt speed (N + 1) s).animating = false := by
        show (tickE dt speed (tickN dt speed N s)).animating = false
        refine (hiff hposN).mpr ?_
        intro k t c hmemN hcN
        have hmem : (k, t) ∈ s.targetPositions := by
          rw [← htpN]
          exact hmemN
        obtain ⟨c0', hc0', _, _⟩ := hpos (k, t) hmem
        obtain ⟨p, hp, hw⟩ := hwithinN k t c0' hmem hc0'
        have hpc : p = c := Option.some.inj (hp.symm.trans hcN)
        rw [jsAbs_eq_abs]
        calc |t - movePos (dt * speed) c t| ≤ |t - c| :=
            movePos_dist_le _ _ _ (le_of_lt had)
        _ ≤ 1/1000 := by rw [← hpc]; exact hw
      refine ⟨N + 1, hflag1, ?_⟩
      intro kt hmem
      obtain ⟨k, t⟩ := kt
      obtain ⟨c, hc, _, _⟩ := hpos (k, t) hmem
      exact (tickN_props dt speed hdt hsp s hAS hanim hnd hreg hcv hpos
        (N + 1)).2.2.2.2.2.2 hflag1 k t c hmem hc
  · intro n kt hmem c hc
    obtain ⟨k, t⟩ := kt
    obtain ⟨p, hp, h1, h2, _⟩ :=
      (tickN_props dt speed hdt hsp s hAS hanim hnd hreg hcv hpos
        n).2.2.2.2.2.1 k t c hmem hc
    exact ⟨p, hp, h1, h2⟩

/-- C2 witness: the concrete animating state with ball 0 and target 1
converges within epsilon in finitely many unit ticks, never
overshooting. -/
theorem c2_witness :
    (0 : ℚ) < 1 ∧
    ((∃ n, (tickN 1 1 n c1State).animating = false ∧
      ∀ kt ∈ c1State.targetPositions, ∃ p,
        lookupA kt.1 (tickN 1 1 n c1State).ballPositions = some p ∧
        |kt.2 - p| ≤ 1/1000) ∧
     (∀ n, ∀ kt ∈ c1State.targetPositions, ∀ c,
       lookupA kt.1 c1State.ballPositions = some c →
       ∃ p, lookupA kt.1 (tickN 1 1 n c1State).ballPositions = some p ∧
         min c kt.2 ≤ p ∧ p ≤ max c kt.2)) :=
  ⟨by norm_num,
   c2_convergence c1State 1 1 (by norm_num) (by norm_num) rfl rfl
    (by decide) (by decide) (by decide)
    (by
      intro kt hmem
      have h2 : kt = ("A", 1) := List.mem_singleton.mp hmem
      subst h2
      exact ⟨0, by decide, by norm_num, by norm_num⟩)
    (by
      intro kt hmem
      have h2 : kt = ("A", 1) := List.mem_singleton.mp hmem
      subst h2
      exact ⟨by norm_num, by norm_num⟩)⟩

end ReconcileFlow
